import Mathlib

/-!
Shallow embedding of the FitDev.io task scheduler, compensation system and
reinforcement-learning policies, together with proofs settling the frozen
claims about the natural-language specification.

Sources embedded (module paths of the repository):
  fitdev/models/task.py          (Task, TaskStatus, can_start)
  fitdev/models/agent.py         (BaseAgent: update_metric)
  fitdev/models/compensation.py  (CompensationSystem)
  fitdev/models/reinforcement.py (ParameterLearningSystem, TaskStrategySystem)
  fitdev/organization.py         (Organization: registry, scheduler, rewards)

Python floats are modelled as rationals, Python dicts as insertion-ordered
association lists with replace-in-place update, randomness as explicit
oracle arguments, and the abstract worker/critic calls as oracle functions.
An exception raised by a worker call is modelled with Except.
-/

namespace FitDev

/-- Membership of a list of characters as a contiguous segment of another.
Models the Python substring test (sub in s). -/
def charsContains (sub : List Char) : List Char → Bool
  | [] => sub.isEmpty
  | c :: rest => sub.isPrefixOf (c :: rest) || charsContains sub rest

/-- Lower-casing of a string, character by character (Python str.lower on
the ASCII names used by the repository). -/
def strToLower (s : String) : String := ⟨s.toList.map Char.toLower⟩

/-- Substring test: sub occurs contiguously in s. -/
def strContains (s sub : String) : Bool := charsContains sub.toList s.toList

/-- Python dict update d[k] = v on an insertion-ordered association list:
replaces the value in place when the key is present, appends otherwise. -/
def dictInsert (k : String) (v : α) : List (String × α) → List (String × α)
  | [] => [(k, v)]
  | (k', v') :: rest =>
      if k' == k then (k, v) :: rest else (k', v') :: dictInsert k v rest

/-- Modify the value stored at a key, leaving the list unchanged when the
key is absent. -/
def dictModify (k : String) (f : α → α) : List (String × α) → List (String × α)
  | [] => []
  | (k', v') :: rest =>
      if k' == k then (k', f v') :: rest else (k', v') :: dictModify k f rest

/-- Clamp to the unit interval: max(0.0, min(1.0, x)) as in the source. -/
def clamp01 (x : ℚ) : ℚ := max 0 (min 1 x)

/-! ## fitdev/models/task.py -/

/-- Enum TaskStatus of fitdev/models/task.py. -/
inductive TaskStatus where
  | pending
  | in_progress
  | completed
  | failed
  | blocked
deriving DecidableEq, Repr

/-- Task of fitdev/models/task.py. Opaque payload fields that never
influence control flow (timestamps, tags, subtasks, metadata) are omitted;
results values are kept as opaque strings. -/
structure Task where
  id : String
  title : String
  description : String
  task_type : String
  priority : Int
  assigned_to : Option String
  status : TaskStatus
  dependencies : List String
  results : List (String × String)
deriving DecidableEq, Repr

/-- Task constructor (Task.__init__): fresh tasks start Pending with no
dependencies and no results; the uuid is passed explicitly. -/
def mkTask (id title description task_type : String) (priority : Int) : Task :=
  { id := id, title := title, description := description,
    task_type := task_type, priority := priority, assigned_to := none,
    status := .pending, dependencies := [], results := [] }

/-- Task.can_start: all dependencies are among the completed task ids. -/
def Task.can_start (t : Task) (completed_task_ids : List String) : Bool :=
  t.dependencies.all (fun dep_id => completed_task_ids.contains dep_id)

/-- Task.update_status (timestamps omitted). -/
def Task.update_status (t : Task) (status : TaskStatus) : Task :=
  { t with status := status }

/-- Task.add_result: results[key] = value. -/
def Task.add_result (t : Task) (key value : String) : Task :=
  { t with results := dictInsert key value t.results }

/-! ## fitdev/models/agent.py (BaseAgent) -/

/-- BaseAgent of fitdev/models/agent.py: the identity, display name, role
tag and the performance-metric mapping; behaviour of the abstract methods
execute_task and evaluate_performance is supplied by oracles. -/
structure Agent where
  id : String
  name : String
  role : String
  performance_metrics : List (String × ℚ)
deriving DecidableEq, Repr

/-- BaseAgent.update_metric: performance_metrics[metric_name] = value. -/
def Agent.update_metric (a : Agent) (metric_name : String) (value : ℚ) : Agent :=
  { a with performance_metrics := dictInsert metric_name value a.performance_metrics }

/-- BaseCritic of fitdev/models/critic.py: identity, name and target role;
evaluate_work is supplied by an oracle. -/
structure Critic where
  id : String
  name : String
  target_role : String
deriving DecidableEq, Repr

/-! ## fitdev/models/compensation.py -/

/-- One record of CompensationSystem.payment_history (uuid and timestamp
omitted). -/
structure Payment where
  agent_id : String
  role : String
  base_rate : ℚ
  performance_score : ℚ
  compensation : ℚ
deriving DecidableEq, Repr

/-- CompensationSystem of fitdev/models/compensation.py. -/
structure CompensationSystem where
  base_rates : List (String × ℚ)
  performance_multiplier : ℚ
  payment_history : List Payment
deriving DecidableEq, Repr

/-- CompensationSystem.get_base_rate: base_rates.get(role,
base_rates.get(default, 50.0)). -/
def CompensationSystem.get_base_rate (sys : CompensationSystem) (role : String) : ℚ :=
  (sys.base_rates.lookup role).getD ((sys.base_rates.lookup "default").getD 50)

/-- CompensationSystem.calculate_compensation: computes
base_rate * (1.0 + performance_score * (performance_multiplier - 1.0)) and
records the payment; returns the amount and the updated system. -/
def CompensationSystem.calculate_compensation (sys : CompensationSystem)
    (agent_id role : String) (performance_score : ℚ) : ℚ × CompensationSystem :=
  let base_rate := sys.get_base_rate role
  let compensation := base_rate * (1 + performance_score * (sys.performance_multiplier - 1))
  (compensation,
   { sys with payment_history := sys.payment_history ++
      [{ agent_id := agent_id, role := role, base_rate := base_rate,
         performance_score := performance_score, compensation := compensation }] })

/-- CompensationSystem.get_total_compensation with no agent filter. -/
def CompensationSystem.get_total_compensation (sys : CompensationSystem) : ℚ :=
  (sys.payment_history.map (fun p => p.compensation)).sum

/-- CompensationSystem.get_average_performance with no role filter. -/
def CompensationSystem.get_average_performance (sys : CompensationSystem) : ℚ :=
  if sys.payment_history.isEmpty then 0
  else (sys.payment_history.map (fun p => p.performance_score)).sum / sys.payment_history.length

/-- Default compensation configuration of fitdev/config/config.py
(DEFAULT_CONFIG, compensation section). -/
def defaultBaseRates : List (String × ℚ) :=
  [("executive", 100), ("development", 85), ("quality", 80), ("specialized", 90)]

/-- Default performance multiplier of fitdev/config/config.py. -/
def defaultPerformanceMultiplier : ℚ := 1.5

/-- CompensationSystem as initialised by Organization.__init__ from the
default configuration. -/
def defaultCompensationSystem : CompensationSystem :=
  { base_rates := defaultBaseRates,
    performance_multiplier := defaultPerformanceMultiplier,
    payment_history := [] }

/-! ## fitdev/organization.py -/

/-- Specification trace of the scheduler: a ghost log (not a field of the
Python class) recording each status transition made by the Organization,
with the completed-task list at the moment a task is assigned. -/
inductive SchedEvent where
  | assigned (task_id : String) (dependencies : List String) (completedSnapshot : List String)
  | completedTask (task_id : String)
deriving DecidableEq, Repr

/-- Organization of fitdev/organization.py. Dicts are insertion-ordered
association lists; events is the ghost trace described above. -/
structure Organization where
  name : String
  agents : List (String × Agent)
  critics : List (String × Critic)
  agent_critic_pairs : List (String × String)
  tasks : List (String × Task)
  completed_tasks : List String
  evaluations : List (String × List ℚ)
  compensation_system : CompensationSystem
  events : List SchedEvent
deriving DecidableEq, Repr

/-- Behaviour of the external collaborators consumed by the scheduler:
execute_task of the concrete agent classes (which may raise, modelled by
Except.error), evaluate_work of the concrete critic classes (reduced to
the score the Organization reads from the returned evaluation record) and
evaluate_performance of the concrete agent classes. -/
structure Oracles where
  execTask : Agent → Task → Except Unit (List (String × String))
  evalWork : Critic → Agent → Task → ℚ
  perf : Agent → ℚ

/-- Organization.add_agent: stores the agent and seeds its evaluation
list. -/
def Organization.add_agent (org : Organization) (a : Agent) : Organization :=
  { org with agents := dictInsert a.id a org.agents,
             evaluations := dictInsert a.id [] org.evaluations }

/-- Organization.add_critic. -/
def Organization.add_critic (org : Organization) (c : Critic) : Organization :=
  { org with critics := dictInsert c.id c org.critics }

/-- Organization.add_agent_with_critic: adds both and records the pair in
agent_critic_pairs. -/
def Organization.add_agent_with_critic (org : Organization) (a : Agent) (c : Critic) :
    Organization :=
  let org1 := (org.add_agent a).add_critic c
  { org1 with agent_critic_pairs := dictInsert a.id c.id org1.agent_critic_pairs }

/-- Organization.get_agents_by_role. -/
def Organization.get_agents_by_role (org : Organization) (role : String) : List Agent :=
  (org.agents.map Prod.snd).filter (fun a => a.role == role)

/-- Organization.add_task: stores the task; note that no validation of the
dependency list happens here. -/
def Organization.add_task (org : Organization) (t : Task) : Organization :=
  { org with tasks := dictInsert t.id t org.tasks }

/-- Organization.assign_task: returns False when the task or agent is
unknown, otherwise marks the task InProgress and assigned. The ghost
event records the dependencies of the stored task and the completed-task
list at this moment. -/
def Organization.assign_task (org : Organization) (task_id agent_id : String) :
    Organization × Bool :=
  match org.tasks.lookup task_id, org.agents.lookup agent_id with
  | some t, some _ =>
      let t1 := { t with assigned_to := some agent_id }.update_status .in_progress
      ({ org with tasks := dictInsert task_id t1 org.tasks,
                  events := org.events ++
                    [.assigned task_id t.dependencies org.completed_tasks] }, true)
  | _, _ => (org, false)

/-- Transcription of the static task-type to metric-name if/elif chain in
Organization.complete_task (lines 267-281): the first matching branch
decides the metric, so each task type updates at most one metric; the
task type api_documentation occurs in two branch lists but only its first
occurrence (documentation_clarity) is reachable. -/
def metricForTaskType (ty : String) : Option String :=
  if ["component_implementation", "styling", "frontend_integration"].contains ty then
    some "code_quality"
  else if ["test_planning", "test_automation", "bug_verification"].contains ty then
    some "test_coverage"
  else if ["security_assessment", "code_security_review"].contains ty then
    some "vulnerability_detection"
  else if ["api_documentation", "user_guide", "developer_documentation"].contains ty then
    some "documentation_clarity"
  else if ["persona_creation", "user_flow_mapping", "heuristic_evaluation",
           "usability_testing"].contains ty then
    some "ux_expertise"
  else if ["api_design", "api_documentation", "api_security_review",
           "api_versioning_strategy"].contains ty then
    some "api_quality"
  else if ["tech_debt_assessment", "refactoring_plan", "debt_prioritization",
           "architecture_evaluation"].contains ty then
    some "architecture_quality"
  else none

/-- The evaluation part of Organization.complete_task (lines 237-289):
when the completed task has an assigned agent with a paired critic, the
critic score is appended to the evaluations of the agent and the metric
selected by metricForTaskType is overwritten; every lookup miss leaves
the organization unchanged (the source only logs there). -/
def Organization.recordEvaluation (org1 : Organization) (t2 : Task)
    (evalWork : Critic → Agent → Task → ℚ) : Organization :=
  match t2.assigned_to with
  | none => org1
  | some agent_id =>
      match org1.agents.lookup agent_id with
      | none => org1
      | some agent =>
          match org1.agent_critic_pairs.lookup agent_id with
          | none => org1
          | some critic_id =>
              match org1.critics.lookup critic_id with
              | none => org1
              | some critic =>
                  let evaluation_score := evalWork critic agent t2
                  let newEvals :=
                    dictModify agent_id (fun evs => evs ++ [evaluation_score])
                      org1.evaluations
                  let org2 := { org1 with evaluations := newEvals }
                  let agent1 :=
                    match metricForTaskType t2.task_type with
                    | some m => agent.update_metric m evaluation_score
                    | none => agent
                  { org2 with agents := dictInsert agent_id agent1 org2.agents }

/-- Organization.complete_task: stores the results on the task, marks it
Completed, appends its id to completed_tasks, and runs the critic
evaluation step. Returns False only when the task id is unknown. -/
def Organization.complete_task (org : Organization) (task_id : String)
    (results : List (String × String)) (evalWork : Critic → Agent → Task → ℚ) :
    Organization × Bool :=
  match org.tasks.lookup task_id with
  | none => (org, false)
  | some t =>
      let t2 := Task.update_status (results.foldl (fun acc kv => acc.add_result kv.1 kv.2) t) .completed
      let org1 := { org with tasks := dictInsert task_id t2 org.tasks,
                             completed_tasks := org.completed_tasks ++ [task_id],
                             events := org.events ++ [SchedEvent.completedTask task_id] }
      (org1.recordEvaluation t2 evalWork, true)

/-- Organization.get_pending_tasks. -/
def Organization.get_pending_tasks (org : Organization) : List Task :=
  (org.tasks.map Prod.snd).filter (fun t => t.status == .pending)

/-- Organization.get_available_tasks. -/
def Organization.get_available_tasks (org : Organization) : List Task :=
  org.get_pending_tasks.filter (fun t => t.can_start org.completed_tasks)

/-- Organization.get_agent_average_evaluation_score: 0.5 when the agent
has no evaluations, otherwise the mean score. -/
def Organization.get_agent_average_evaluation_score (org : Organization)
    (agent_id : String) : ℚ :=
  let evs := (org.evaluations.lookup agent_id).getD []
  if evs.isEmpty then 0.5 else evs.sum / evs.length

/-- Organization.calculate_compensation: for every agent in registry order,
combines the self evaluation (weight 0.4) with the mean critic score
(weight 0.6) and pays through the compensation system; returns the
agent-id to amount mapping and the updated organization. -/
def Organization.calculate_compensation (org : Organization) (oracles : Oracles) :
    List (String × ℚ) × Organization :=
  let step := fun (acc : List (String × ℚ) × CompensationSystem)
                  (entry : String × Agent) =>
    let agent_id := entry.1
    let agent := entry.2
    let self_score := oracles.perf agent
    let critic_score := org.get_agent_average_evaluation_score agent_id
    let combined_score := self_score * 0.4 + critic_score * 0.6
    let pay := acc.2.calculate_compensation agent_id agent.role combined_score
    (dictInsert agent_id pay.1 acc.1, pay.2)
  let r := org.agents.foldl step ([], org.compensation_system)
  (r.1, { org with compensation_system := r.2 })

/-- The role_mapping dict literal of Organization.select_agent_for_task,
in source order. The key api_documentation is written twice in the source
(once under quality, once under specialized); Python dict-literal
semantics keep the last value, which roleForTaskType reproduces by
looking the key up in the reversed list. -/
def role_mapping : List (String × String) :=
  [("component_implementation", "development"),
   ("styling", "development"),
   ("frontend_integration", "development"),
   ("backend_development", "development"),
   ("api_development", "development"),
   ("devops_task", "development"),
   ("test_planning", "quality"),
   ("test_automation", "quality"),
   ("bug_verification", "quality"),
   ("security_assessment", "quality"),
   ("code_security_review", "quality"),
   ("security_implementation", "quality"),
   ("api_documentation", "quality"),
   ("user_guide", "quality"),
   ("developer_documentation", "quality"),
   ("project_planning", "executive"),
   ("product_strategy", "executive"),
   ("resource_allocation", "executive"),
   ("roadmap_planning", "executive"),
   ("knowledge_base_creation", "specialized"),
   ("information_architecture", "specialized"),
   ("knowledge_transfer", "specialized"),
   ("trend_research", "specialized"),
   ("tool_evaluation", "specialized"),
   ("technology_recommendations", "specialized"),
   ("persona_creation", "specialized"),
   ("user_flow_mapping", "specialized"),
   ("heuristic_evaluation", "specialized"),
   ("usability_testing", "specialized"),
   ("api_design", "specialized"),
   ("api_documentation", "specialized"),
   ("api_security_review", "specialized"),
   ("api_versioning_strategy", "specialized"),
   ("tech_debt_assessment", "specialized"),
   ("refactoring_plan", "specialized"),
   ("debt_prioritization", "specialized"),
   ("architecture_evaluation", "specialized")]

/-- role_mapping.get(task_type, executive): the role a task type maps to,
defaulting to executive for unknown task types. -/
def roleForTaskType (ty : String) : String :=
  (role_mapping.reverse.lookup ty).getD "executive"

/-- The filtered-list selections inside Organization.select_agent_for_task:
the first agent whose role matches and whose display name contains the
given substring. -/
def Organization.firstAgentMatching (org : Organization) (role sub : String) :
    Option String :=
  (((org.agents.map Prod.snd).filter
      (fun a => a.role == role && strContains a.name sub)).head?).map (fun a => a.id)

/-- The role-specific if/elif chains of Organization.select_agent_for_task
(lines 433-526): each branch returns the first matching specialist and
otherwise falls through to the common fallback. -/
def Organization.specificAgentForTask (org : Organization) (role ty : String) :
    Option String :=
  if role == "development" then
    if ["component_implementation", "styling", "frontend_integration"].contains ty then
      org.firstAgentMatching "development" "Frontend"
    else if ["backend_development", "api_development"].contains ty then
      org.firstAgentMatching "development" "Backend"
    else if ["devops_task"].contains ty then
      org.firstAgentMatching "development" "DevOps"
    else none
  else if role == "quality" then
    if ["test_planning", "test_automation", "bug_verification"].contains ty then
      org.firstAgentMatching "quality" "QA"
    else if ["security_assessment", "code_security_review",
             "security_implementation"].contains ty then
      org.firstAgentMatching "quality" "Security"
    else if ["api_documentation", "user_guide", "developer_documentation"].contains ty then
      org.firstAgentMatching "quality" "Writer"
    else none
  else if role == "executive" then
    if ["project_planning", "resource_allocation"].contains ty then
      org.firstAgentMatching "executive" "CTO"
    else if ["product_strategy", "roadmap_planning"].contains ty then
      org.firstAgentMatching "executive" "Product"
    else none
  else if role == "specialized" then
    if ["knowledge_base_creation", "information_architecture",
        "knowledge_transfer"].contains ty then
      org.firstAgentMatching "specialized" "Knowledge Management"
    else if ["trend_research", "tool_evaluation",
             "technology_recommendations"].contains ty then
      org.firstAgentMatching "specialized" "Trend Scout"
    else if ["persona_creation", "user_flow_mapping", "heuristic_evaluation",
             "usability_testing"].contains ty then
      org.firstAgentMatching "specialized" "UX Simulator"
    else if ["api_design", "api_documentation", "api_security_review",
             "api_versioning_strategy"].contains ty then
      org.firstAgentMatching "specialized" "API Specialist"
    else if ["tech_debt_assessment", "refactoring_plan", "debt_prioritization",
             "architecture_evaluation"].contains ty then
      org.firstAgentMatching "specialized" "Tech Debt Manager"
    else none
  else none

/-- Organization.select_agent_for_task: specialist match first, then the
first agent of the mapped role, then any registered agent (the first key
of the agents dict), and None only when no agents are registered. -/
def Organization.select_agent_for_task (org : Organization) (t : Task) : Option String :=
  let role := roleForTaskType t.task_type
  match org.specificAgentForTask role t.task_type with
  | some agent_id => some agent_id
  | none =>
      match org.get_agents_by_role role with
      | a :: _ => some a.id
      | [] =>
          match org.agents with
          | (k, _) :: _ => some k
          | [] => none

/-- The body of the per-task loop in Organization.run_organization (lines
561-582): select an agent (skipping the task when none suits), assign the
task, execute it through the agent oracle and complete it. The source has
no exception handler here, so an error from execute_task propagates. -/
def Organization.processTask (oracles : Oracles) (org : Organization) (t : Task) :
    Organization × Except Unit Unit :=
  match org.select_agent_for_task t with
  | none => (org, .ok ())
  | some agent_id =>
      match org.agents.lookup agent_id with
      | none => (org, .ok ())
      | some agent =>
          let org1 := (org.assign_task t.id agent.id).1
          match oracles.execTask agent t with
          | .error e => (org1, .error e)
          | .ok results => ((org1.complete_task t.id results oracles.evalWork).1, .ok ())

/-- The per-cycle loop over the available tasks; an uncaught error stops
the remaining tasks of the cycle (and the run). -/
def Organization.runCycleTasks (oracles : Oracles) :
    List Task → Organization → Organization × Except Unit Unit
  | [], org => (org, .ok ())
  | t :: rest, org =>
      match org.processTask oracles t with
      | (org1, .ok _) => Organization.runCycleTasks oracles rest org1
      | (org1, .error e) => (org1, .error e)

/-- The cycle loop of Organization.run_organization: the first argument is
max_cycles, the recursion counts the remaining cycles; the loop breaks
when no task is available, and compensation is computed at the last cycle
or when no task remains pending. -/
def Organization.runCycles (oracles : Oracles) (max_cycles : ℕ) :
    ℕ → Organization → Organization × Except Unit Unit
  | 0, org => (org, .ok ())
  | remaining + 1, org =>
      let available_tasks := org.get_available_tasks
      if available_tasks.isEmpty then (org, .ok ())
      else
        match Organization.runCycleTasks oracles available_tasks org with
        | (org1, .error e) => (org1, .error e)
        | (org1, .ok _) =>
            let cycle := max_cycles - (remaining + 1)
            let org2 :=
              if cycle == max_cycles - 1 || org1.get_pending_tasks.isEmpty then
                (org1.calculate_compensation oracles).2
              else org1
            Organization.runCycles oracles max_cycles remaining org2

/-- The run summary compiled at the end of Organization.run_organization. -/
structure RunSummary where
  name : String
  agents : ℕ
  tasks_completed : ℕ
  tasks_pending : ℕ
  total_evaluations : ℕ
  total_compensation : ℚ
  average_performance : ℚ
deriving DecidableEq, Repr

/-- Organization.run_organization: runs up to max_cycles cycles and, when
no task execution raised, returns the summary record. -/
def Organization.run_organization (oracles : Oracles) (org : Organization)
    (max_cycles : ℕ) : Organization × Except Unit RunSummary :=
  match Organization.runCycles oracles max_cycles max_cycles org with
  | (org1, .error e) => (org1, .error e)
  | (org1, .ok _) =>
      (org1, .ok
        { name := org1.name,
          agents := org1.agents.length,
          tasks_completed := org1.completed_tasks.length,
          tasks_pending := org1.get_pending_tasks.length,
          total_evaluations := (org1.evaluations.map (fun e => e.2.length)).sum,
          total_compensation := org1.compensation_system.get_total_compensation,
          average_performance := org1.compensation_system.get_average_performance })

/-! ## fitdev/models/reinforcement.py: ParameterLearningSystem -/

/-- ParameterLearningSystem of fitdev/models/reinforcement.py: the knob
mapping and the append-only (snapshot, compensation) history. -/
structure ParameterLearningSystem where
  agent_id : String
  role : String
  learning_rate : ℚ
  parameters : List (String × ℚ)
  parameter_history : List (List (String × ℚ) × ℚ)
deriving DecidableEq, Repr

/-- The parameter mapping seeded by
ParameterLearningSystem._initialize_parameters: three universal knobs at
0.5 plus role-specific knobs decided by substring tests on the lowercased
role. -/
def initialParameters (role : String) : List (String × ℚ) :=
  let base := [("thoroughness", (0.5 : ℚ)), ("creativity", 0.5), ("risk_taking", 0.5)]
  if strContains (strToLower role) "frontend" then
    base ++ [("design_focus", 0.5), ("accessibility_focus", 0.5)]
  else if strContains (strToLower role) "backend" then
    base ++ [("performance_focus", 0.5), ("security_focus", 0.5), ("code_reusability", 0.5)]
  else if strContains (strToLower role) "qa" then
    base ++ [("test_coverage", 0.5), ("edge_case_focus", 0.5)]
  else base

/-- ParameterLearningSystem._record_parameters. -/
def ParameterLearningSystem.record_parameters (sys : ParameterLearningSystem)
    (compensation : ℚ) : ParameterLearningSystem :=
  { sys with parameter_history := sys.parameter_history ++ [(sys.parameters, compensation)] }

/-- ParameterLearningSystem.__init__ (learning_rate defaults to 0.05): the
initial parameters are recorded in history with compensation 0. -/
def ParameterLearningSystem.init (agent_id role : String) (learning_rate : ℚ) :
    ParameterLearningSystem :=
  ParameterLearningSystem.record_parameters
    { agent_id := agent_id, role := role, learning_rate := learning_rate,
      parameters := initialParameters role, parameter_history := [] } 0

/-- ParameterLearningSystem.get_parameter: defaults to 0.5. -/
def ParameterLearningSystem.get_parameter (sys : ParameterLearningSystem)
    (name : String) : ℚ :=
  (sys.parameters.lookup name).getD 0.5

/-- ParameterLearningSystem.set_parameter: clamps to the unit interval. -/
def ParameterLearningSystem.set_parameter (sys : ParameterLearningSystem)
    (name : String) (value : ℚ) : ParameterLearningSystem :=
  { sys with parameters := dictInsert name (clamp01 value) sys.parameters }

/-- The relevance_map of ParameterLearningSystem._is_parameter_relevant. -/
def relevance_map : List (String × List String) :=
  [("component_implementation",
      ["thoroughness", "creativity", "design_focus", "accessibility_focus"]),
   ("styling", ["creativity", "design_focus", "accessibility_focus"]),
   ("frontend_integration", ["thoroughness", "creativity", "accessibility_focus"]),
   ("api_development",
      ["thoroughness", "performance_focus", "security_focus", "code_reusability"]),
   ("database_implementation", ["performance_focus", "thoroughness", "security_focus"]),
   ("service_implementation", ["code_reusability", "thoroughness", "security_focus"]),
   ("testing", ["thoroughness", "test_coverage", "edge_case_focus"])]

/-- ParameterLearningSystem._is_parameter_relevant: the two universal
names are always relevant, other names only per relevance_map. -/
def is_parameter_relevant (param_name task_type : String) : Bool :=
  if ["thoroughness", "risk_taking"].contains param_name then true
  else ((relevance_map.lookup task_type).getD []).contains param_name

/-- The per-parameter loop of
ParameterLearningSystem.update_from_compensation: iterates the parameter
dict in order (index i drives the randomness oracles), skips irrelevant
parameters, either explores by adding the sampled delta or exploits by
moving with or against adjust_rate depending on the sign of
param_delta * adjust_rate, and clamps the result to the unit interval. -/
def updateParams (adjust_rate : ℚ) (prev_params : List (String × ℚ))
    (task_type : String) (explore : ℕ → Bool) (delta : ℕ → ℚ) :
    ℕ → List (String × ℚ) → List (String × ℚ)
  | _, [] => []
  | i, (n, v) :: rest =>
      let tail := updateParams adjust_rate prev_params task_type explore delta (i + 1) rest
      if is_parameter_relevant n task_type then
        let newV :=
          if explore i then v + delta i
          else
            let prev_value := (prev_params.lookup n).getD v
            let param_delta := v - prev_value
            v + adjust_rate * (if param_delta * adjust_rate > 0 then 1 else -1)
        (n, clamp01 newV) :: tail
      else (n, v) :: tail

/-- ParameterLearningSystem.update_from_compensation: records the current
snapshot with the received compensation, returns unchanged when the
history is still shorter than 2, and otherwise adjusts every relevant
parameter. The random draws of the source are the oracles explore
(whether the exploration branch fires for the parameter at a position)
and delta (the uniform sample in that branch). -/
def ParameterLearningSystem.update_from_compensation (sys : ParameterLearningSystem)
    (compensation : ℚ) (task_type : String) (explore : ℕ → Bool) (delta : ℕ → ℚ) :
    ParameterLearningSystem :=
  let sys1 := sys.record_parameters compensation
  if sys1.parameter_history.length < 2 then sys1
  else
    let prev_record := (sys1.parameter_history.get? (sys1.parameter_history.length - 2)).getD ([], 0)
    let improved := compensation > prev_record.2
    let adjust_rate := if improved then sys1.learning_rate else -sys1.learning_rate * 0.5
    { sys1 with parameters :=
        updateParams adjust_rate prev_record.1 task_type explore delta 0 sys1.parameters }

/-- ParameterLearningSystem.get_optimal_parameters: the snapshot of the
history entry with maximal compensation (first occurrence wins, as Python
max does). -/
def ParameterLearningSystem.get_optimal_parameters (sys : ParameterLearningSystem) :
    List (String × ℚ) :=
  match sys.parameter_history with
  | [] => sys.parameters
  | h :: rest =>
      (rest.foldl (fun best r => if best.2 < r.2 then r else best) h).1

/-- One externally triggered call on a ParameterLearningSystem: either an
update_from_compensation (with its randomness oracles) or a manual
set_parameter. -/
inductive ParamOp where
  | update (compensation : ℚ) (task_type : String) (explore : ℕ → Bool) (delta : ℕ → ℚ)
  | setp (name : String) (value : ℚ)

/-- Apply one ParamOp. -/
def applyParamOp (sys : ParameterLearningSystem) : ParamOp → ParameterLearningSystem
  | .update compensation task_type explore delta =>
      sys.update_from_compensation compensation task_type explore delta
  | .setp name value => sys.set_parameter name value

/-- Apply a sequence of ParamOps from left to right. -/
def applyParamOps (ops : List ParamOp) (sys : ParameterLearningSystem) :
    ParameterLearningSystem :=
  ops.foldl applyParamOp sys

/-! ## fitdev/models/reinforcement.py: TaskStrategySystem -/

/-- One named execution strategy. -/
structure Strategy where
  name : String
  description : String
  steps : List String
deriving DecidableEq, Repr

/-- Fallback strategy value standing for the places where the Python code
would raise on an empty strategy list (random.choice and strategies[0]);
every theorem below is used away from those places. -/
def defStrategy : Strategy := { name := "", description := "", steps := [] }

/-- TaskStrategySystem of fitdev/models/reinforcement.py: registered
strategies and outcome records per task type, plus the decaying
exploration rate of the bandit. -/
structure TaskStrategySystem where
  agent_id : String
  role : String
  strategies : List (String × List Strategy)
  strategy_results : List (String × List (String × ℚ))
  exploration_rate : ℚ
  min_exploration_rate : ℚ
  decay_factor : ℚ

/-- TaskStrategySystem.record_result: appends the outcome for the task
type (creating the list when absent) and decays the exploration rate,
never below the floor. -/
def TaskStrategySystem.record_result (sys : TaskStrategySystem)
    (task_type strategy_name : String) (compensation : ℚ) : TaskStrategySystem :=
  let outcomes := (sys.strategy_results.lookup task_type).getD []
  { sys with
      strategy_results :=
        dictInsert task_type (outcomes ++ [(strategy_name, compensation)]) sys.strategy_results,
      exploration_rate :=
        max sys.min_exploration_rate (sys.exploration_rate * sys.decay_factor) }

/-- The general strategies registered for every role by
TaskStrategySystem._initialize_strategies. -/
def generalStrategies : List Strategy :=
  [{ name := "Thorough Analysis",
     description := "Spend extra time analyzing the requirements before implementation",
     steps := ["analyze", "plan", "implement", "test", "document"] },
   { name := "Rapid Implementation",
     description := "Focus on quickly implementing a working solution",
     steps := ["quick_plan", "implement", "basic_test"] },
   { name := "Research-First",
     description := "Research similar solutions before implementation",
     steps := ["research", "analyze", "implement", "test"] }]

/-- TaskStrategySystem.__init__: exploration rate 0.2, floor 0.05, decay
0.995; only the general strategies matter for the claims, the role-gated
extra entries are omitted from the embedding (they do not change any
statement proved below, which quantify over arbitrary strategy lists). -/
def TaskStrategySystem.init (agent_id role : String) : TaskStrategySystem :=
  { agent_id := agent_id, role := role,
    strategies := [("general", generalStrategies)],
    strategy_results := [],
    exploration_rate := 0.2,
    min_exploration_rate := 0.05,
    decay_factor := 0.995 }

/-- Number of recorded outcomes of a named strategy inside the outcome
list of one task type (the length of strategy_scores[name] in
TaskStrategySystem._select_strategy). -/
def trialsFor (results : List (String × ℚ)) (name : String) : ℕ :=
  (results.filter (fun r => r.1 == name)).length

/-- Apply record_result for a list of (task type, strategy name,
compensation) outcomes from left to right. -/
def applyStrategyRecords (calls : List (String × String × ℚ))
    (sys : TaskStrategySystem) : TaskStrategySystem :=
  calls.foldl (fun s c => s.record_result c.1 c.2.1 c.2.2) sys

/-- The UCB1 score assigned to one strategy name in
TaskStrategySystem._select_strategy: unseen names get float(inf),
modelled as the top element; seen names get mean reward plus the
exploration bonus sqrt(2 * log(num_trials) / trials(name)). -/
noncomputable def ucbScore (results : List (String × ℚ)) (name : String) : WithTop ℝ :=
  let scores := (results.filter (fun r => r.1 == name)).map (fun r => r.2)
  if scores.isEmpty then ⊤
  else
    let mean_reward : ℚ := scores.sum / scores.length
    (((mean_reward : ℝ) +
       Real.sqrt (2 * Real.log (results.length) / scores.length) : ℝ) : WithTop ℝ)

/-- The ucb_scores dict of TaskStrategySystem._select_strategy, keyed in
the iteration order of the strategy list. -/
noncomputable def ucbScores (results : List (String × ℚ)) (strategies : List Strategy) :
    List (String × WithTop ℝ) :=
  strategies.map (fun s => (s.name, ucbScore results s.name))

/-- Left fold of Python max: the current maximum is replaced only by a
strictly greater value, so the first maximal entry wins. -/
noncomputable def maxByFirstAux (acc : String × WithTop ℝ) :
    List (String × WithTop ℝ) → String × WithTop ℝ
  | [] => acc
  | p :: rest => maxByFirstAux (if acc.2 < p.2 then p else acc) rest

/-- Python max(ucb_scores, key=ucb_scores.get) over the entry list; none
only on the empty list, where Python would raise. -/
noncomputable def maxByFirst : List (String × WithTop ℝ) → Option (String × WithTop ℝ)
  | [] => none
  | p :: rest => some (maxByFirstAux p rest)

/-- The exploitation branch of TaskStrategySystem._select_strategy: pick
the name with the highest UCB score and return the first strategy with
that name, with the Python fallback strategies[0] when the winning name
is not registered. -/
noncomputable def selectStrategyExploit (results : List (String × ℚ))
    (strategies : List Strategy) : Option Strategy :=
  match maxByFirst (ucbScores results strategies) with
  | none => none
  | some best =>
      some (((strategies.filter (fun s => s.name == best.1)).head?).getD
        (strategies.headD defStrategy))

/-- TaskStrategySystem._select_strategy: the random draw against the
exploration rate is the oracle exploreRoll and random.choice is the
oracle index randPick; otherwise, with at least one recorded outcome for
the task type, the UCB1 exploitation branch decides. -/
noncomputable def TaskStrategySystem.select_strategy (sys : TaskStrategySystem)
    (task_type : String) (strategies : List Strategy)
    (exploreRoll : Bool) (randPick : ℕ) : Strategy :=
  if exploreRoll then strategies.getD randPick defStrategy
  else
    let results := (sys.strategy_results.lookup task_type).getD []
    if results.isEmpty then strategies.getD randPick defStrategy
    else (selectStrategyExploit results strategies).getD defStrategy

/-! ## Ghost-trace predicates used to state the scheduling claims -/

/-- Completed-task ids recorded in a trace, in order. -/
def completedIds : List SchedEvent → List String
  | [] => []
  | .assigned _ _ _ :: es => completedIds es
  | .completedTask tid :: es => tid :: completedIds es

/-- Dependency soundness of a trace: every assignment event carries only
dependencies already in its completed-set snapshot, and for each such
dependency a completion event occurs strictly earlier in the trace. -/
def DepsRespected (events : List SchedEvent) : Prop :=
  ∀ i tid deps snap, events.get? i = some (.assigned tid deps snap) →
    (∀ d ∈ deps, d ∈ snap) ∧
    (∀ d ∈ deps, ∃ j, j < i ∧ events.get? j = some (.completedTask d))

/-- The completed-task list agrees with the ghost trace. -/
def EventsConsistent (org : Organization) : Prop :=
  org.completed_tasks = completedIds org.events

/-- Every stored task carries the key it is stored under (what
Organization.add_task guarantees). -/
def TasksWellKeyed (org : Organization) : Prop :=
  ∀ p ∈ org.tasks, (p.2 : Task).id = p.1

/-- The invariants of the scheduling proof, bundled. -/
def SchedInv (org : Organization) : Prop :=
  EventsConsistent org ∧ DepsRespected org.events ∧ TasksWellKeyed org ∧
    (org.tasks.map Prod.fst).Nodup

/-! ## Concrete fixtures for counterexamples and witnesses -/

/-- An organization with empty registries (the Python constructor also
seeds fifteen default agent/critic pairs; the operations under test are
independent of that seeding and the claims quantify over organizations). -/
def org0 : Organization :=
  { name := "FitDev.io", agents := [], critics := [], agent_critic_pairs := [],
    tasks := [], completed_tasks := [], evaluations := [],
    compensation_system := defaultCompensationSystem, events := [] }

/-- A development agent fixture. -/
def agentA : Agent := { id := "a1", name := "Dev", role := "development",
                        performance_metrics := [] }

/-- A critic fixture. -/
def criticC1 : Critic := { id := "c1", name := "Critic One", target_role := "development" }

/-- A second critic fixture for the re-registration counterexample. -/
def criticC2 : Critic := { id := "c2", name := "Critic Two", target_role := "development" }

/-- A task whose dependency list names an id unknown to org0. -/
def task7 : Task := { mkTask "t7" "Seven" "desc" "misc_task" 0 with dependencies := ["ghost"] }

/-- An executive agent fixture. -/
def agentE : Agent := { id := "ae", name := "Boss", role := "executive",
                        performance_metrics := [] }

/-- A critic paired with agentE. -/
def criticE : Critic := { id := "ce", name := "Boss Critic", target_role := "executive" }

/-- First task of the two-task failure scenario. -/
def taskE1 : Task := mkTask "t1" "Task One" "desc" "misc_task" 0

/-- Second task of the two-task failure scenario. -/
def taskE2 : Task := mkTask "t2" "Task Two" "desc" "misc_task" 0

/-- Organization holding one paired agent and two independent pending
tasks. -/
def orgE : Organization :=
  { name := "Org", agents := [("ae", agentE)], critics := [("ce", criticE)],
    agent_critic_pairs := [("ae", "ce")],
    tasks := [("t1", taskE1), ("t2", taskE2)], completed_tasks := [],
    evaluations := [("ae", [])],
    compensation_system := defaultCompensationSystem, events := [] }

/-- Oracles whose worker raises on the first task and succeeds on every
other one. -/
def oraclesE : Oracles :=
  { execTask := fun _ t => if t.id == "t1" then .error () else .ok [],
    evalWork := fun _ _ _ => 0.8,
    perf := fun _ => 0.9 }

/-- A task already marked Failed before the run. -/
def taskF : Task := { mkTask "tf" "Flaky" "desc" "misc_task" 0 with status := .failed }

/-- Organization holding only the pre-failed task. -/
def orgF : Organization :=
  { name := "Org", agents := [("ae", agentE)], critics := [("ce", criticE)],
    agent_critic_pairs := [("ae", "ce")],
    tasks := [("tf", taskF)], completed_tasks := [], evaluations := [("ae", [])],
    compensation_system := defaultCompensationSystem, events := [] }

/-- Chain fixture: A has no dependency. -/
def taskChainA : Task := mkTask "ta" "A" "desc" "misc_task" 0

/-- Chain fixture: B depends on A. -/
def taskChainB : Task := { mkTask "tb" "B" "desc" "misc_task" 0 with dependencies := ["ta"] }

/-- Chain fixture: C depends on B. -/
def taskChainC : Task := { mkTask "tc" "C" "desc" "misc_task" 0 with dependencies := ["tb"] }

/-- Organization with the dependency chain submitted in reverse order. -/
def orgChain : Organization :=
  { name := "Org", agents := [("ae", agentE)], critics := [("ce", criticE)],
    agent_critic_pairs := [("ae", "ce")],
    tasks := [("tc", taskChainC), ("tb", taskChainB), ("ta", taskChainA)],
    completed_tasks := [], evaluations := [("ae", [])],
    compensation_system := defaultCompensationSystem, events := [] }

/-- Oracles that always succeed. -/
def oraclesOk : Oracles :=
  { execTask := fun _ _ => .ok [], evalWork := fun _ _ _ => 0.8, perf := fun _ => 0.9 }

/-- A styling task already assigned to the agent a9, as complete_task sees
it during a run. -/
def task9 : Task :=
  { mkTask "t9" "Style" "desc" "styling" 0 with
    assigned_to := some "a9"
    status := .in_progress }

/-- The development agent executing task9. -/
def agent9 : Agent := { id := "a9", name := "Fay Frontend", role := "development",
                        performance_metrics := [("code_quality", 0.5)] }

/-- The critic paired with agent9. -/
def critic9 : Critic := { id := "c9", name := "Frontend Critic", target_role := "development" }

/-- Organization in which task9 is in progress. -/
def org9 : Organization :=
  { name := "Org", agents := [("a9", agent9)], critics := [("c9", critic9)],
    agent_critic_pairs := [("a9", "c9")],
    tasks := [("t9", task9)], completed_tasks := [], evaluations := [("a9", [])],
    compensation_system := defaultCompensationSystem, events := [] }

/-- Single-agent organization for the compensation-formula witness. -/
def orgW : Organization :=
  { name := "Org", agents := [("ae", agentE)], critics := [("ce", criticE)],
    agent_critic_pairs := [("ae", "ce")],
    tasks := [], completed_tasks := [], evaluations := [("ae", [])],
    compensation_system := defaultCompensationSystem, events := [] }

/-- A task whose type appears nowhere in role_mapping. -/
def taskSel : Task := mkTask "ts" "Odd" "desc" "weird_type" 0

/-- Organization whose only agent has a role different from the fallback
executive role. -/
def orgSel : Organization :=
  { name := "Org", agents := [("a1", agentA)], critics := [], agent_critic_pairs := [],
    tasks := [], completed_tasks := [], evaluations := [("a1", [])],
    compensation_system := defaultCompensationSystem, events := [] }

/-- Strategy system with exactly one recorded outcome, for the UCB1
cold-start witness. -/
def sysW : TaskStrategySystem :=
  (TaskStrategySystem.init "x" "executive").record_result "general" "Thorough Analysis" 0.7

/-! ## Association-list lemmas -/

theorem lookup_dictInsert_self (k : String) (v : α) (l : List (String × α)) :
    (dictInsert k v l).lookup k = some v := by
  induction l with
  | nil => simp [dictInsert, List.lookup]
  | cons p rest ih =>
      obtain ⟨k', v'⟩ := p
      by_cases h : k' = k
      · subst h; simp [dictInsert, List.lookup]
      · simp only [dictInsert, beq_iff_eq, if_neg h, List.lookup]
        have : (k == k') = false := by
          simpa using fun hk => h hk.symm
        simp [this, ih]

theorem lookup_dictInsert_ne (k k' : String) (v : α) (l : List (String × α))
    (h : k' ≠ k) : (dictInsert k v l).lookup k' = l.lookup k' := by
  induction l with
  | nil =>
      have : (k' == k) = false := by simpa using h
      simp [dictInsert, List.lookup, this]
  | cons p rest ih =>
      obtain ⟨k0, v0⟩ := p
      by_cases h0 : k0 = k
      · subst h0
        have : (k' == k0) = false := by simpa using h
        simp [dictInsert, List.lookup, this]
      · simp only [dictInsert, beq_iff_eq, if_neg h0, List.lookup]
        by_cases h1 : k' = k0
        · subst h1; simp
        · have : (k' == k0) = false := by simpa using h1
          simp [this, ih]

/-! ## Claim C8: registration never fails, it overwrites -/

/-- Claim C8 counterexample: re-registering the already paired worker a1
with a second reviewer raises nothing and silently replaces the pairing,
refuting the claimed DuplicateRegistration failure. -/
theorem register_duplicate_counterexample :
    ((org0.add_agent_with_critic agentA criticC1).add_agent_with_critic
        agentA criticC2).agent_critic_pairs.lookup "a1" = some "c2" ∧
    (org0.add_agent_with_critic agentA criticC1).agent_critic_pairs.lookup "a1" =
      some "c1" :=
  ⟨rfl, rfl⟩

/-- Claim C8 (amended): add_agent_with_critic pairs the worker with the
reviewer unconditionally; when the worker identity is already paired the
existing pairing is overwritten and no DuplicateRegistration error
exists. -/
theorem register_pairs_last_wins : ∀ (org : Organization) (a : Agent) (c : Critic),
    (org.add_agent_with_critic a c).agent_critic_pairs.lookup a.id = some c.id ∧
    (org.add_agent_with_critic a c).agents.lookup a.id = some a := by
  intro org a c
  constructor
  · simp [Organization.add_agent_with_critic, Organization.add_agent,
          Organization.add_critic, lookup_dictInsert_self]
  · simp [Organization.add_agent_with_critic, Organization.add_agent,
          Organization.add_critic, lookup_dictInsert_self]

/-! ## Claim C7: submission never validates dependencies -/

/-- Claim C7 counterexample: adding a task whose dependency list names an
id unknown to the organization succeeds and stores the task, refuting the
claimed InvalidTask failure. -/
theorem submit_unknown_dependency_counterexample :
    (org0.add_task task7).tasks.lookup "t7" = some task7 ∧
    task7.dependencies = ["ghost"] ∧
    (org0.tasks.map Prod.fst).contains "ghost" = false ∧
    task7.status = .pending :=
  ⟨rfl, rfl, rfl, rfl⟩

/-- Claim C7 (amended): add_task stores the task unconditionally (tasks
are created Pending by the constructor); dependency identities are not
validated and no InvalidTask error exists — a task with a dependency
outside the completed list merely never enters the available set. -/
theorem submit_accepts_unknown_dependencies :
    ∀ (org : Organization) (t : Task) (id title descr ty : String) (p : Int),
    (mkTask id title descr ty p).status = .pending ∧
    (org.add_task t).tasks.lookup t.id = some t ∧
    (∀ d, d ∈ t.dependencies → d ∉ org.completed_tasks →
      t ∉ (org.add_task t).get_available_tasks) := by
  intro org t id title descr ty p
  refine ⟨rfl, ?_, ?_⟩
  · simp [Organization.add_task, lookup_dictInsert_self]
  · intro d hd hnc hmem
    have h2 := (List.mem_filter.mp hmem).2
    have hcs : t.can_start (org.add_task t).completed_tasks = true := by
      simpa using h2
    have hcompleted : (org.add_task t).completed_tasks = org.completed_tasks := rfl
    rw [hcompleted] at hcs
    have := List.all_eq_true.mp hcs d hd
    exact hnc (by simpa using this)

/-- Claim C7 witness: the amended statement applied to the concrete
organization org0 and the task with the unknown dependency ghost. -/
theorem submit_accepts_unknown_dependencies_witness :
    ("ghost" ∈ task7.dependencies ∧ "ghost" ∉ org0.completed_tasks) ∧
    task7 ∉ (org0.add_task task7).get_available_tasks :=
  ⟨⟨by decide, by decide⟩,
   (submit_accepts_unknown_dependencies org0 task7 "x" "x" "x" "x" 0).2.2 "ghost"
     (by decide) (by decide)⟩

/-! ## Claim C2: the compensation formula -/

/-- Claim C2: for a registered worker the paid compensation equals
baseRate(role) * (1 + combined * (multiplier - 1)) with
combined = 0.4 * selfScore + 0.6 * peerScore, and on the default
configuration (executive base rate 100, multiplier 1.5) the two boundary
score pairs give exactly 150 and exactly 100. -/
theorem compensation_formula :
    (∀ (org : Organization) (oracles : Oracles) (agent_id : String) (agent : Agent),
      org.agents = [(agent_id, agent)] →
      (org.calculate_compensation oracles).1.lookup agent_id =
        some (org.compensation_system.get_base_rate agent.role *
          (1 + (oracles.perf agent * 0.4 +
                org.get_agent_average_evaluation_score agent_id * 0.6) *
            (org.compensation_system.performance_multiplier - 1)))) ∧
    (defaultCompensationSystem.calculate_compensation "w" "executive"
      (1 * 0.4 + 1 * 0.6)).1 = 150 ∧
    (defaultCompensationSystem.calculate_compensation "w" "executive"
      (0 * 0.4 + 0 * 0.6)).1 = 100 := by
  refine ⟨?_, ?_, ?_⟩
  · intro org oracles agent_id agent h
    simp [Organization.calculate_compensation, h,
          CompensationSystem.calculate_compensation, lookup_dictInsert_self]
  · simp only [CompensationSystem.calculate_compensation,
      CompensationSystem.get_base_rate, defaultCompensationSystem,
      defaultBaseRates, defaultPerformanceMultiplier, List.lookup]
    norm_num
  · simp only [CompensationSystem.calculate_compensation,
      CompensationSystem.get_base_rate, defaultCompensationSystem,
      defaultBaseRates, defaultPerformanceMultiplier, List.lookup]
    norm_num

/-- Claim C2 witness: the formula instantiated on the concrete
single-agent organization orgW. -/
theorem compensation_formula_witness :
    orgW.agents = [("ae", agentE)] ∧
    (orgW.calculate_compensation oraclesOk).1.lookup "ae" =
      some (orgW.compensation_system.get_base_rate agentE.role *
        (1 + (oraclesOk.perf agentE * 0.4 +
              orgW.get_agent_average_evaluation_score "ae" * 0.6) *
          (orgW.compensation_system.performance_multiplier - 1))) :=
  ⟨rfl, compensation_formula.1 orgW oraclesOk "ae" agentE rfl⟩

/-! ## Claim C6: exploration-rate decay with a floor -/

theorem applyStrategyRecords_inv :
    ∀ (calls : List (String × String × ℚ)) (sys : TaskStrategySystem),
    sys.min_exploration_rate = 0.05 → sys.decay_factor = 0.995 →
    0.05 ≤ sys.exploration_rate →
    (applyStrategyRecords calls sys).min_exploration_rate = 0.05 ∧
    (applyStrategyRecords calls sys).decay_factor = 0.995 ∧
    0.05 ≤ (applyStrategyRecords calls sys).exploration_rate := by
  intro calls
  induction calls with
  | nil => intro sys h1 h2 h3; exact ⟨h1, h2, h3⟩
  | cons c rest ih =>
      intro sys h1 h2 h3
      have hstep : applyStrategyRecords (c :: rest) sys =
          applyStrategyRecords rest (sys.record_result c.1 c.2.1 c.2.2) := rfl
      rw [hstep]
      refine ih _ ?_ ?_ ?_
      · simpa [TaskStrategySystem.record_result] using h1
      · simpa [TaskStrategySystem.record_result] using h2
      · simp only [TaskStrategySystem.record_result, h1]
        exact le_max_left _ _

/-- Claim C6: starting from the initial exploration rate 0.2, after any
sequence of record_result calls the exploration rate stays at or above
the floor 0.05; one further recorded outcome multiplies it by 0.995
(clamped at the floor) and never increases it. -/
theorem exploration_rate_decay :
    ∀ (agent_id role : String) (calls : List (String × String × ℚ))
      (ty name : String) (comp : ℚ),
    (TaskStrategySystem.init agent_id role).exploration_rate = 0.2 ∧
    0.05 ≤ (applyStrategyRecords calls
      (TaskStrategySystem.init agent_id role)).exploration_rate ∧
    ((applyStrategyRecords calls (TaskStrategySystem.init agent_id role)).record_result
        ty name comp).exploration_rate =
      max 0.05
        ((applyStrategyRecords calls
            (TaskStrategySystem.init agent_id role)).exploration_rate * 0.995) ∧
    ((applyStrategyRecords calls (TaskStrategySystem.init agent_id role)).record_result
        ty name comp).exploration_rate ≤
      (applyStrategyRecords calls (TaskStrategySystem.init agent_id role)).exploration_rate := by
  intro agent_id role calls ty name comp
  obtain ⟨h1, h2, h3⟩ := applyStrategyRecords_inv calls (TaskStrategySystem.init agent_id role)
    rfl rfl (by norm_num [TaskStrategySystem.init])
  refine ⟨rfl, h3, ?_, ?_⟩
  · simp [TaskStrategySystem.record_result, h1, h2]
  · simp only [TaskStrategySystem.record_result, h1, h2]
    have hpos : (0 : ℚ) ≤ (applyStrategyRecords calls
        (TaskStrategySystem.init agent_id role)).exploration_rate :=
      le_trans (by norm_num) h3
    apply max_le h3
    calc (applyStrategyRecords calls
            (TaskStrategySystem.init agent_id role)).exploration_rate * 0.995
        ≤ (applyStrategyRecords calls
            (TaskStrategySystem.init agent_id role)).exploration_rate * 1 :=
          mul_le_mul_of_nonneg_left (by norm_num) hpos
      _ = (applyStrategyRecords calls
            (TaskStrategySystem.init agent_id role)).exploration_rate := mul_one _

/-! ## Claim C9: completion updates exactly one metric, overwriting it -/

theorem foldl_add_result_fields (results : List (String × String)) :
    ∀ (t : Task),
    (results.foldl (fun acc kv => acc.add_result kv.1 kv.2) t).assigned_to = t.assigned_to ∧
    (results.foldl (fun acc kv => acc.add_result kv.1 kv.2) t).task_type = t.task_type ∧
    (results.foldl (fun acc kv => acc.add_result kv.1 kv.2) t).id = t.id ∧
    (results.foldl (fun acc kv => acc.add_result kv.1 kv.2) t).dependencies =
      t.dependencies := by
  induction results with
  | nil => intro t; exact ⟨rfl, rfl, rfl, rfl⟩
  | cons kv rest ih =>
      intro t
      simpa [Task.add_result] using ih (t.add_result kv.1 kv.2)

/-- Claim C9: the task-type to metric-name mapping transcribed from the
if/elif chain of complete_task is single-valued; when a completed task
has an assigned agent with a paired critic and its type is in the
mapping, complete_task stores the agent with exactly that metric
overwritten by the evaluation score, and update_metric overwrites the
named metric and only it. -/
theorem complete_task_metric_overwrite :
    (∀ (ty m₁ m₂ : String), metricForTaskType ty = some m₁ →
      metricForTaskType ty = some m₂ → m₁ = m₂) ∧
    (∀ (org : Organization) (task_id : String) (results : List (String × String))
      (evalWork : Critic → Agent → Task → ℚ) (t : Task) (agent_id : String)
      (agent : Agent) (critic_id : String) (critic : Critic) (m : String),
      org.tasks.lookup task_id = some t →
      t.assigned_to = some agent_id →
      org.agents.lookup agent_id = some agent →
      org.agent_critic_pairs.lookup agent_id = some critic_id →
      org.critics.lookup critic_id = some critic →
      metricForTaskType t.task_type = some m →
      (org.complete_task task_id results evalWork).1.agents.lookup agent_id =
        some (agent.update_metric m
          (evalWork critic agent
            ((results.foldl (fun acc kv => acc.add_result kv.1 kv.2) t).update_status
              .completed)))) ∧
    (∀ (a : Agent) (mname : String) (value : ℚ),
      (a.update_metric mname value).performance_metrics.lookup mname = some value ∧
      ∀ m', m' ≠ mname →
        (a.update_metric mname value).performance_metrics.lookup m' =
          a.performance_metrics.lookup m') := by
  refine ⟨?_, ?_, ?_⟩
  · intro ty m₁ m₂ h1 h2
    rw [h1] at h2
    exact Option.some.inj h2
  · intro org task_id results evalWork t agent_id agent critic_id critic m
      hlookup hassg hag hpair hcr hm
    obtain ⟨hfa, hft, _, _⟩ := foldl_add_result_fields results t
    have hassg2 : (Task.update_status
        (results.foldl (fun acc kv => acc.add_result kv.1 kv.2) t) .completed).assigned_to =
        some agent_id := by
      simp [Task.update_status, hfa, hassg]
    have hft2 : (Task.update_status
        (results.foldl (fun acc kv => acc.add_result kv.1 kv.2) t) .completed).task_type =
        t.task_type := by
      simp [Task.update_status, hft]
    unfold Organization.complete_task
    rw [hlookup]
    unfold Organization.recordEvaluation
    dsimp only
    rw [hassg2]
    simp only [hag, hpair, hcr, hft2, hm]
    simp [lookup_dictInsert_self, Task.update_status]
  · intro a mname value
    refine ⟨?_, ?_⟩
    · simp [Agent.update_metric, lookup_dictInsert_self]
    · intro m' hne
      simp [Agent.update_metric, lookup_dictInsert_ne _ _ _ _ hne]

/-- Claim C9 witness: completing the styling task t9 overwrites exactly
the code_quality metric of its agent with the critic score. -/
theorem complete_task_metric_overwrite_witness :
    metricForTaskType task9.task_type = some "code_quality" ∧
    (org9.complete_task "t9" [] oraclesOk.evalWork).1.agents.lookup "a9" =
      some (agent9.update_metric "code_quality"
        (oraclesOk.evalWork critic9 agent9 (task9.update_status .completed))) :=
  ⟨by decide,
   complete_task_metric_overwrite.2.1 org9 "t9" [] oraclesOk.evalWork task9 "a9"
     agent9 "c9" critic9 "code_quality" rfl rfl rfl rfl rfl (by decide)⟩

/-! ## Claim C4: parameter values stay inside the unit interval -/

theorem clamp01_bounds (x : ℚ) : 0 ≤ clamp01 x ∧ clamp01 x ≤ 1 :=
  ⟨le_max_left 0 _, max_le (by norm_num) (min_le_left 1 x)⟩

theorem updateParams_bounds (adjust_rate : ℚ) (prev_params : List (String × ℚ))
    (task_type : String) (explore : ℕ → Bool) (delta : ℕ → ℚ) :
    ∀ (l : List (String × ℚ)) (i : ℕ),
    (∀ p ∈ l, 0 ≤ p.2 ∧ p.2 ≤ 1) →
    ∀ p ∈ updateParams adjust_rate prev_params task_type explore delta i l,
      0 ≤ p.2 ∧ p.2 ≤ 1 := by
  intro l
  induction l with
  | nil => intro i _ p hp; simp [updateParams] at hp
  | cons q rest ih =>
      intro i hl p hp
      obtain ⟨n, v⟩ := q
      by_cases hrel : is_parameter_relevant n task_type
      · simp only [updateParams, hrel, if_true] at hp
        rcases List.mem_cons.mp hp with h | h
        · subst h; exact clamp01_bounds _
        · exact ih (i + 1) (fun r hr => hl r (List.mem_cons_of_mem _ hr)) p h
      · simp only [updateParams, hrel, if_false, Bool.false_eq_true] at hp
        rcases List.mem_cons.mp hp with h | h
        · subst h; exact hl (n, v) (List.mem_cons_self _ _)
        · exact ih (i + 1) (fun r hr => hl r (List.mem_cons_of_mem _ hr)) p h

theorem dictInsert_forall {α : Type} {P : String × α → Prop} (k : String) (v : α)
    (l : List (String × α)) (hl : ∀ p ∈ l, P p) (hv : P (k, v)) :
    ∀ p ∈ dictInsert k v l, P p := by
  induction l with
  | nil => intro p hp; simp [dictInsert] at hp; subst hp; exact hv
  | cons q rest ih =>
      intro p hp
      obtain ⟨k0, v0⟩ := q
      by_cases h0 : k0 = k
      · subst h0
        simp only [dictInsert, beq_self_eq_true, if_true] at hp
        rcases List.mem_cons.mp hp with h | h
        · subst h; exact hv
        · exact hl p (List.mem_cons_of_mem _ h)
      · have hbeq : (k0 == k) = false := by simpa using h0
        simp only [dictInsert, hbeq, Bool.false_eq_true, if_false] at hp
        rcases List.mem_cons.mp hp with h | h
        · subst h; exact hl _ (List.mem_cons_self _ _)
        · exact ih (fun r hr => hl r (List.mem_cons_of_mem _ hr)) p h

theorem initialParameters_bounds (role : String) :
    ∀ p ∈ initialParameters role, 0 ≤ p.2 ∧ p.2 ≤ 1 := by
  unfold initialParameters
  split_ifs <;> simp [List.forall_mem_cons] <;> norm_num

theorem applyParamOp_bounds (sys : ParameterLearningSystem) (op : ParamOp)
    (h : ∀ p ∈ sys.parameters, 0 ≤ p.2 ∧ p.2 ≤ 1) :
    ∀ p ∈ (applyParamOp sys op).parameters, 0 ≤ p.2 ∧ p.2 ≤ 1 := by
  cases op with
  | setp name value =>
      intro p hp
      exact dictInsert_forall name (clamp01 value) sys.parameters h
        (clamp01_bounds value) p hp
  | update compensation task_type explore delta =>
      intro p hp
      simp only [applyParamOp, ParameterLearningSystem.update_from_compensation,
        ParameterLearningSystem.record_parameters] at hp
      by_cases hlen :
          (sys.parameter_history ++ [(sys.parameters, compensation)]).length < 2
      · simp only [hlen, if_true] at hp
        exact h p hp
      · simp only [hlen, if_false] at hp
        exact updateParams_bounds _ _ _ _ _ sys.parameters 0 h p hp

theorem applyParamOps_bounds :
    ∀ (ops : List ParamOp) (sys : ParameterLearningSystem),
    (∀ p ∈ sys.parameters, 0 ≤ p.2 ∧ p.2 ≤ 1) →
    ∀ p ∈ (applyParamOps ops sys).parameters, 0 ≤ p.2 ∧ p.2 ≤ 1 := by
  intro ops
  induction ops with
  | nil => intro sys h; exact h
  | cons op rest ih =>
      intro sys h
      exact ih (applyParamOp sys op) (applyParamOp_bounds sys op h)

/-- Claim C4: starting from the 0.5 defaults, every value stored in the
parameter mapping after any sequence of update_from_compensation (under
any randomness) and set_parameter calls lies in the unit interval. -/
theorem parameter_values_stay_in_unit_interval :
    ∀ (agent_id role : String) (learning_rate : ℚ) (ops : List ParamOp)
      (p : String × ℚ),
    p ∈ (applyParamOps ops
      (ParameterLearningSystem.init agent_id role learning_rate)).parameters →
    0 ≤ p.2 ∧ p.2 ≤ 1 := by
  intro agent_id role learning_rate ops p hp
  refine applyParamOps_bounds ops _ ?_ p hp
  intro q hq
  exact initialParameters_bounds role q hq

/-- Claim C4 witness: the bound instantiated at the freshly initialised
system of an executive agent. -/
theorem parameter_values_stay_in_unit_interval_witness :
    ("thoroughness", (0.5 : ℚ)) ∈
      (applyParamOps []
        (ParameterLearningSystem.init "pa" "executive" 0.05)).parameters ∧
    (0 ≤ (0.5 : ℚ) ∧ (0.5 : ℚ) ≤ 1) := by
  have hmem : ("thoroughness", (0.5 : ℚ)) ∈
      (applyParamOps []
        (ParameterLearningSystem.init "pa" "executive" 0.05)).parameters := by
    simp [applyParamOps, ParameterLearningSystem.init,
      ParameterLearningSystem.record_parameters, initialParameters,
      (by decide : strContains (strToLower "executive") "frontend" = false),
      (by decide : strContains (strToLower "executive") "backend" = false),
      (by decide : strContains (strToLower "executive") "qa" = false)]
  exact ⟨hmem,
    parameter_values_stay_in_unit_interval "pa" "executive" 0.05 [] _ hmem⟩

/-! ## Claim C10: agent selection is total whenever an agent exists -/

theorem lookup_eq_none_of_not_mem_keys (l : List (String × α)) (k : String)
    (h : k ∉ l.map Prod.fst) : l.lookup k = none := by
  induction l with
  | nil => rfl
  | cons p rest ih =>
      obtain ⟨k0, v0⟩ := p
      simp only [List.map_cons, List.mem_cons, not_or] at h
      have hbeq : (k == k0) = false := by simpa using h.1
      simp [List.lookup, hbeq, ih h.2]

theorem firstAgentMatching_none_of_role_empty (org : Organization) (role sub : String)
    (h : org.get_agents_by_role role = []) :
    org.firstAgentMatching role sub = none := by
  have hnil : ((org.agents.map Prod.snd).filter
      (fun a => a.role == role && strContains a.name sub)) = [] := by
    rw [List.eq_nil_iff_forall_not_mem]
    intro a ha
    have hmf := List.mem_filter.mp ha
    have hband : (a.role == role) = true ∧ strContains a.name sub = true := by
      simpa using hmf.2
    have : a ∈ org.get_agents_by_role role :=
      List.mem_filter.mpr ⟨hmf.1, hband.1⟩
    rw [h] at this
    simp at this
  simp [Organization.firstAgentMatching, hnil]

theorem specific_none_of_role_empty (org : Organization) (role ty : String)
    (h : org.get_agents_by_role role = []) :
    org.specificAgentForTask role ty = none := by
  have hfa : ∀ sub, org.firstAgentMatching role sub = none := fun sub =>
    firstAgentMatching_none_of_role_empty org role sub h
  by_cases h1 : role = "development"
  · subst h1; simp [Organization.specificAgentForTask, hfa]
  · by_cases h2 : role = "quality"
    · subst h2; simp [Organization.specificAgentForTask, hfa]
    · by_cases h3 : role = "executive"
      · subst h3; simp [Organization.specificAgentForTask, hfa]
      · by_cases h4 : role = "specialized"
        · subst h4; simp [Organization.specificAgentForTask, hfa]
        · simp [Organization.specificAgentForTask,
            (by simpa using h1 : (role == "development") = false),
            (by simpa using h2 : (role == "quality") = false),
            (by simpa using h3 : (role == "executive") = false),
            (by simpa using h4 : (role == "specialized") = false)]

theorem select_some_of_agents_cons (org : Organization) (t : Task) (k : String)
    (a : Agent) (rest : List (String × Agent)) (hag : org.agents = (k, a) :: rest) :
    ∃ x, org.select_agent_for_task t = some x := by
  unfold Organization.select_agent_for_task
  cases hspec : org.specificAgentForTask (roleForTaskType t.task_type) t.task_type with
  | some y => exact ⟨y, by simp [hspec]⟩
  | none =>
      cases hrole : org.get_agents_by_role (roleForTaskType t.task_type) with
      | cons b bs => exact ⟨b.id, by simp [hspec, hrole]⟩
      | nil => exact ⟨k, by simp [hspec, hrole, hag]⟩

/-- Claim C10: select_agent_for_task returns None exactly when the agent
registry is empty; a task type outside the role table maps to the
executive role; and when the mapped role has no agents the selector
returns the first registered agent of any role. -/
theorem select_agent_total :
    ∀ (org : Organization) (t : Task),
    (org.select_agent_for_task t = none ↔ org.agents = []) ∧
    (t.task_type ∉ role_mapping.map Prod.fst →
      roleForTaskType t.task_type = "executive") ∧
    (org.get_agents_by_role (roleForTaskType t.task_type) = [] →
      ∀ (k : String) (a : Agent) (rest : List (String × Agent)),
        org.agents = (k, a) :: rest → org.select_agent_for_task t = some k) := by
  intro org t
  refine ⟨⟨?_, ?_⟩, ?_, ?_⟩
  · intro hnone
    cases hag : org.agents with
    | nil => rfl
    | cons p rest =>
        obtain ⟨x, hx⟩ := select_some_of_agents_cons org t p.1 p.2 rest (by
          rw [hag])
        rw [hx] at hnone
        cases hnone
  · intro h
    have hempty : org.get_agents_by_role (roleForTaskType t.task_type) = [] := by
      simp [Organization.get_agents_by_role, h]
    have hspec := specific_none_of_role_empty org (roleForTaskType t.task_type)
      t.task_type hempty
    unfold Organization.select_agent_for_task
    simp [hspec, hempty, h]
  · intro hmem
    have hrev : t.task_type ∉ role_mapping.reverse.map Prod.fst := by
      rw [List.map_reverse]
      simpa using hmem
    simp [roleForTaskType, lookup_eq_none_of_not_mem_keys _ _ hrev]
  · intro hempty k a rest hag
    have hspec := specific_none_of_role_empty org (roleForTaskType t.task_type)
      t.task_type hempty
    unfold Organization.select_agent_for_task
    simp [hspec, hempty, hag]

/-- Claim C10 witness: a task of an unknown type in an organization whose
single agent is not executive is still assigned, to that agent. -/
theorem select_agent_total_witness :
    taskSel.task_type ∉ role_mapping.map Prod.fst ∧
    roleForTaskType taskSel.task_type = "executive" ∧
    orgSel.select_agent_for_task taskSel = some "a1" :=
  ⟨by decide,
   (select_agent_total orgSel taskSel).2.1 (by decide),
   (select_agent_total orgSel taskSel).2.2 (by decide) "a1" agentA [] rfl⟩

/-! ## Claim C5: UCB1 cold-start preference for zero-trial strategies -/

theorem maxByFirstAux_mem :
    ∀ (l : List (String × WithTop ℝ)) (acc : String × WithTop ℝ),
    maxByFirstAux acc l = acc ∨ maxByFirstAux acc l ∈ l := by
  intro l
  induction l with
  | nil => intro acc; left; rfl
  | cons p rest ih =>
      intro acc
      by_cases h : acc.2 < p.2
      · have hstep : maxByFirstAux acc (p :: rest) = maxByFirstAux p rest := by
          simp [maxByFirstAux, h]
        rw [hstep]
        rcases ih p with h1 | h1
        · right; rw [h1]; exact List.mem_cons_self _ _
        · right; exact List.mem_cons_of_mem _ h1
      · have hstep : maxByFirstAux acc (p :: rest) = maxByFirstAux acc rest := by
          simp [maxByFirstAux, h]
        rw [hstep]
        rcases ih acc with h1 | h1
        · left; exact h1
        · right; exact List.mem_cons_of_mem _ h1

theorem maxByFirstAux_top :
    ∀ (l : List (String × WithTop ℝ)) (acc : String × WithTop ℝ),
    (acc.2 = ⊤ ∨ ∃ p ∈ l, p.2 = ⊤) → (maxByFirstAux acc l).2 = ⊤ := by
  intro l
  induction l with
  | nil =>
      intro acc h
      rcases h with h | ⟨p, hp, _⟩
      · exact h
      · simp at hp
  | cons p rest ih =>
      intro acc h
      have hacc : (if acc.2 < p.2 then p else acc).2 = ⊤ ∨ ∃ q ∈ rest, q.2 = ⊤ := by
        rcases h with h | ⟨q, hq, hqt⟩
        · left
          have : ¬ acc.2 < p.2 := by rw [h]; exact WithTop.not_top_lt _
          simp [this, h]
        · rcases List.mem_cons.mp hq with h1 | h1
          · subst h1
            left
            by_cases hlt : acc.2 < q.2
            · rw [if_pos hlt]; exact hqt
            · have : acc.2 = ⊤ := by
                by_contra hne
                exact hlt (hqt ▸ WithTop.lt_top_iff_ne_top.mpr hne)
              simp [hlt, this]
          · right; exact ⟨q, h1, hqt⟩
      exact ih _ hacc

theorem ucbScore_eq_top_iff (results : List (String × ℚ)) (name : String) :
    ucbScore results name = ⊤ ↔ trialsFor results name = 0 := by
  simp only [ucbScore, trialsFor]
  by_cases h : ((results.filter (fun r => r.1 == name)).map (fun r => r.2)).isEmpty
  · have hnil := List.isEmpty_iff.mp h
    have hfil : results.filter (fun r => r.1 == name) = [] := by
      have hlen := congrArg List.length hnil
      simp only [List.length_map, List.length_nil] at hlen
      exact List.length_eq_zero.mp hlen
    simp [h, hfil]
  · have hne : results.filter (fun r => r.1 == name) ≠ [] := by
      intro hcontra
      exact h (by simp [hcontra])
    simp only [h, Bool.false_eq_true, if_false]
    constructor
    · intro hcoe
      exact absurd hcoe (WithTop.coe_ne_top)
    · intro hlen
      exact absurd (List.length_eq_zero.mp hlen) hne

/-- Claim C5: in the exploitation branch (no exploration roll) with at
least one recorded outcome for the task type, every registered strategy
with zero recorded trials gets the unbounded UCB score, and the selected
strategy is one with zero trials whenever such a strategy is registered —
hence it is chosen over every strategy with at least one trial. -/
theorem ucb_cold_start_preference :
    ∀ (sys : TaskStrategySystem) (task_type : String) (strategies : List Strategy)
      (randPick : ℕ),
    0 < ((sys.strategy_results.lookup task_type).getD []).length →
    0 < strategies.length →
    (∀ s ∈ strategies,
      trialsFor ((sys.strategy_results.lookup task_type).getD []) s.name = 0 →
      ucbScore ((sys.strategy_results.lookup task_type).getD []) s.name = ⊤) ∧
    ((∃ s ∈ strategies,
        trialsFor ((sys.strategy_results.lookup task_type).getD []) s.name = 0) →
      trialsFor ((sys.strategy_results.lookup task_type).getD [])
        (sys.select_strategy task_type strategies false randPick).name = 0) := by
  intro sys task_type strategies randPick hres hstrat
  constructor
  · intro s _ h0
    exact (ucbScore_eq_top_iff _ _).mpr h0
  · intro ⟨s, hs, hs0⟩
    have hresne : ((sys.strategy_results.lookup task_type).getD []).isEmpty = false := by
      cases hr : (sys.strategy_results.lookup task_type).getD [] with
      | nil => rw [hr] at hres; simp at hres
      | cons a l => simp
    have hsel : sys.select_strategy task_type strategies false randPick =
        (selectStrategyExploit ((sys.strategy_results.lookup task_type).getD [])
          strategies).getD defStrategy := by
      simp [TaskStrategySystem.select_strategy, hresne]
    cases hscores : ucbScores ((sys.strategy_results.lookup task_type).getD [])
        strategies with
    | nil =>
        have : strategies = [] := by
          have := congrArg List.length hscores
          simpa [ucbScores] using List.length_eq_zero.mp (by simpa [ucbScores] using this)
        rw [this] at hstrat
        simp at hstrat
    | cons p ps =>
        have hmax : maxByFirst (ucbScores
            ((sys.strategy_results.lookup task_type).getD []) strategies) =
            some (maxByFirstAux p ps) := by
          rw [hscores]; rfl
        have htopmem : (s.name,
            ucbScore ((sys.strategy_results.lookup task_type).getD []) s.name) ∈
            ucbScores ((sys.strategy_results.lookup task_type).getD []) strategies := by
          simp only [ucbScores]
          exact List.mem_map.mpr ⟨s, hs, rfl⟩
        have htop : (maxByFirstAux p ps).2 = ⊤ := by
          apply maxByFirstAux_top
          rw [hscores] at htopmem
          rcases List.mem_cons.mp htopmem with h1 | h1
          · left
            rw [← h1]
            exact (ucbScore_eq_top_iff _ _).mpr hs0
          · right
            exact ⟨_, h1, (ucbScore_eq_top_iff _ _).mpr hs0⟩
        have hbestmem : maxByFirstAux p ps ∈ ucbScores
            ((sys.strategy_results.lookup task_type).getD []) strategies := by
          rw [hscores]
          rcases maxByFirstAux_mem ps p with h1 | h1
          · rw [h1]; exact List.mem_cons_self _ _
          · exact List.mem_cons_of_mem _ h1
        obtain ⟨s1, hs1, hs1eq⟩ := List.mem_map.mp hbestmem
        have hs1top : ucbScore ((sys.strategy_results.lookup task_type).getD [])
            s1.name = ⊤ := (congrArg Prod.snd hs1eq).trans htop
        have hs1zero : trialsFor ((sys.strategy_results.lookup task_type).getD [])
            s1.name = 0 := (ucbScore_eq_top_iff _ _).mp hs1top
        have hbestname : (maxByFirstAux p ps).1 = s1.name := by
          have := congrArg Prod.fst hs1eq
          exact this.symm
        rw [hsel]
        simp only [selectStrategyExploit, hmax]
        cases hfilter : strategies.filter (fun s2 => s2.name == (maxByFirstAux p ps).1) with
        | nil =>
            exfalso
            have : s1 ∈ strategies.filter
                (fun s2 => s2.name == (maxByFirstAux p ps).1) := by
              apply List.mem_filter.mpr
              exact ⟨hs1, by simp [hbestname]⟩
            rw [hfilter] at this
            simp at this
        | cons s2 s2s =>
            have hs2 : s2 ∈ strategies.filter
                (fun s2 => s2.name == (maxByFirstAux p ps).1) := by
              rw [hfilter]; exact List.mem_cons_self _ _
            have hs2name : s2.name = s1.name := by
              have := (List.mem_filter.mp hs2).2
              have hb : s2.name = (maxByFirstAux p ps).1 := by simpa using this
              rw [hb, hbestname]
            simp only [hfilter, List.head?, Option.getD_some]
            rw [hs2name]
            exact hs1zero

/-- Claim C5 witness: with one recorded outcome for Thorough Analysis,
the zero-trial strategy Rapid Implementation has the unbounded score and
the exploitation pick lands on a zero-trial strategy. -/
theorem ucb_cold_start_preference_witness :
    ucbScore ((sysW.strategy_results.lookup "general").getD [])
      "Rapid Implementation" = ⊤ ∧
    trialsFor ((sysW.strategy_results.lookup "general").getD [])
      (sysW.select_strategy "general" generalStrategies false 0).name = 0 :=
  ⟨(ucb_cold_start_preference sysW "general" generalStrategies 0 (by decide)
      (by decide)).1
    { name := "Rapid Implementation",
      description := "Focus on quickly implementing a working solution",
      steps := ["quick_plan", "implement", "basic_test"] } (by decide) (by decide),
   (ucb_cold_start_preference sysW "general" generalStrategies 0 (by decide)
      (by decide)).2
    ⟨{ name := "Rapid Implementation",
       description := "Focus on quickly implementing a working solution",
       steps := ["quick_plan", "implement", "basic_test"] }, by decide, by decide⟩⟩

/-! ## Claim C3: a raising task execution is NOT caught by the loop -/

theorem dictInsert_lookup_cases (k : String) (v : α) (l : List (String × α))
    (k' : String) (w : α) (h : (dictInsert k v l).lookup k' = some w) :
    (k' = k ∧ w = v) ∨ (k' ≠ k ∧ l.lookup k' = some w) := by
  by_cases hk : k' = k
  · subst hk
    rw [lookup_dictInsert_self] at h
    exact Or.inl ⟨rfl, (Option.some.inj h).symm⟩
  · rw [lookup_dictInsert_ne _ _ _ _ hk] at h
    exact Or.inr ⟨hk, h⟩

theorem recordEvaluation_sched_fields (org1 : Organization) (t2 : Task)
    (evalWork : Critic → Agent → Task → ℚ) :
    (org1.recordEvaluation t2 evalWork).tasks = org1.tasks ∧
    (org1.recordEvaluation t2 evalWork).completed_tasks = org1.completed_tasks ∧
    (org1.recordEvaluation t2 evalWork).events = org1.events := by
  unfold Organization.recordEvaluation
  repeat' split
  all_goals exact ⟨rfl, rfl, rfl⟩

theorem assign_task_failed_mono (org : Organization) (tid aid : String) :
    ∀ (id' : String) (t' : Task),
    (org.assign_task tid aid).1.tasks.lookup id' = some t' → t'.status = .failed →
    ∃ t0, org.tasks.lookup id' = some t0 ∧ t0.status = .failed := by
  intro id' t' h hf
  unfold Organization.assign_task at h
  cases hlt : org.tasks.lookup tid with
  | none => rw [hlt] at h; exact ⟨t', h, hf⟩
  | some t =>
      cases hla : org.agents.lookup aid with
      | none => rw [hlt, hla] at h; exact ⟨t', h, hf⟩
      | some a =>
          rw [hlt, hla] at h
          dsimp only at h
          rcases dictInsert_lookup_cases _ _ _ _ _ h with ⟨_, rfl⟩ | ⟨_, h2⟩
          · simp [Task.update_status] at hf
          · exact ⟨t', h2, hf⟩

theorem complete_task_failed_mono (org : Organization) (tid : String)
    (results : List (String × String)) (evalWork : Critic → Agent → Task → ℚ) :
    ∀ (id' : String) (t' : Task),
    (org.complete_task tid results evalWork).1.tasks.lookup id' = some t' →
    t'.status = .failed →
    ∃ t0, org.tasks.lookup id' = some t0 ∧ t0.status = .failed := by
  intro id' t' h hf
  unfold Organization.complete_task at h
  cases hlt : org.tasks.lookup tid with
  | none => rw [hlt] at h; exact ⟨t', h, hf⟩
  | some t =>
      rw [hlt] at h
      dsimp only at h
      rw [(recordEvaluation_sched_fields _ _ _).1] at h
      dsimp only at h
      rcases dictInsert_lookup_cases _ _ _ _ _ h with ⟨_, rfl⟩ | ⟨_, h2⟩
      · simp [Task.update_status] at hf
      · exact ⟨t', h2, hf⟩

theorem processTask_failed_mono (oracles : Oracles) (org : Organization) (t : Task) :
    ∀ (id' : String) (t' : Task),
    (org.processTask oracles t).1.tasks.lookup id' = some t' → t'.status = .failed →
    ∃ t0, org.tasks.lookup id' = some t0 ∧ t0.status = .failed := by
  intro id' t' h hf
  unfold Organization.processTask at h
  cases hsel : org.select_agent_for_task t with
  | none => rw [hsel] at h; exact ⟨t', h, hf⟩
  | some agent_id =>
      rw [hsel] at h
      dsimp only at h
      cases hla : org.agents.lookup agent_id with
      | none => rw [hla] at h; exact ⟨t', h, hf⟩
      | some agent =>
          rw [hla] at h
          dsimp only at h
          cases hexec : oracles.execTask agent t with
          | error e =>
              rw [hexec] at h
              exact assign_task_failed_mono org t.id agent.id id' t' h hf
          | ok results =>
              rw [hexec] at h
              dsimp only at h
              obtain ⟨t1, h1, hf1⟩ :=
                complete_task_failed_mono (org.assign_task t.id agent.id).1 t.id
                  results oracles.evalWork id' t' h hf
              exact assign_task_failed_mono org t.id agent.id id' t1 h1 hf1

theorem runCycleTasks_failed_mono (oracles : Oracles) :
    ∀ (ts : List Task) (org : Organization) (id' : String) (t' : Task),
    (Organization.runCycleTasks oracles ts org).1.tasks.lookup id' = some t' →
    t'.status = .failed →
    ∃ t0, org.tasks.lookup id' = some t0 ∧ t0.status = .failed := by
  intro ts
  induction ts with
  | nil => intro org id' t' h hf; exact ⟨t', h, hf⟩
  | cons t rest ih =>
      intro org id' t' h hf
      unfold Organization.runCycleTasks at h
      cases hp : org.processTask oracles t with
      | mk org1 r =>
          cases r with
          | error e =>
              rw [hp] at h
              dsimp only at h
              have := processTask_failed_mono oracles org t id' t'
              rw [hp] at this
              exact this h hf
          | ok u =>
              rw [hp] at h
              dsimp only at h
              obtain ⟨t1, h1, hf1⟩ := ih org1 id' t' h hf
              have := processTask_failed_mono oracles org t id' t1
              rw [hp] at this
              exact this h1 hf1

theorem calculate_compensation_tasks (org : Organization) (oracles : Oracles) :
    (org.calculate_compensation oracles).2.tasks = org.tasks := rfl

theorem runCycles_failed_mono (oracles : Oracles) (max_cycles : ℕ) :
    ∀ (remaining : ℕ) (org : Organization) (id' : String) (t' : Task),
    (Organization.runCycles oracles max_cycles remaining org).1.tasks.lookup id' =
      some t' →
    t'.status = .failed →
    ∃ t0, org.tasks.lookup id' = some t0 ∧ t0.status = .failed := by
  intro remaining
  induction remaining with
  | zero => intro org id' t' h hf; exact ⟨t', h, hf⟩
  | succ k ih =>
      intro org id' t' h hf
      unfold Organization.runCycles at h
      by_cases hav : org.get_available_tasks.isEmpty
      · rw [if_pos hav] at h; exact ⟨t', h, hf⟩
      · rw [if_neg hav] at h
        cases hc : Organization.runCycleTasks oracles org.get_available_tasks org with
        | mk org1 r =>
            cases r with
            | error e =>
                rw [hc] at h
                dsimp only at h
                have := runCycleTasks_failed_mono oracles org.get_available_tasks org id' t'
                rw [hc] at this
                exact this h hf
            | ok u =>
                rw [hc] at h
                dsimp only at h
                by_cases hcomp : (max_cycles - (k + 1) == max_cycles - 1) = true ||
                    org1.get_pending_tasks.isEmpty = true
                · rw [if_pos (by simpa using hcomp)] at h
                  obtain ⟨t1, h1, hf1⟩ := ih _ id' t' h hf
                  rw [calculate_compensation_tasks] at h1
                  have := runCycleTasks_failed_mono oracles org.get_available_tasks org id' t1
                  rw [hc] at this
                  exact this h1 hf1
                · rw [if_neg (by simpa using hcomp)] at h
                  obtain ⟨t1, h1, hf1⟩ := ih _ id' t' h hf
                  have := runCycleTasks_failed_mono oracles org.get_available_tasks org id' t1
                  rw [hc] at this
                  exact this h1 hf1

/-- Claim C3 counterexample: with a worker whose execution of task t1
raises, a one-cycle run aborts with the error propagated to the caller,
the raising task is left InProgress (not Failed) and the other ready task
of the cycle is never scheduled (still Pending) — refuting catch, Failed
marking and continuation. -/
theorem task_failure_not_caught_counterexample :
    (orgE.run_organization oraclesE 1).2 = .error () ∧
    ((orgE.run_organization oraclesE 1).1.tasks.lookup "t1").map Task.status =
      some .in_progress ∧
    ((orgE.run_organization oraclesE 1).1.tasks.lookup "t2").map Task.status =
      some .pending :=
  ⟨rfl, rfl, rfl⟩

/-- Claim C3 (amended): an exception from a task execution inside the
scheduling loop is not caught: run_organization never newly marks any
task Failed (a Failed task in the final state was already Failed at the
start), and when the executed task raises, processTask returns the error
itself together with the state in which the task was merely assigned —
so the cycle and the run abort. -/
theorem task_failure_not_caught :
    (∀ (oracles : Oracles) (org : Organization) (n : ℕ) (task_id : String) (t1 : Task),
      (org.run_organization oracles n).1.tasks.lookup task_id = some t1 →
      t1.status = .failed →
      ∃ t0, org.tasks.lookup task_id = some t0 ∧ t0.status = .failed) ∧
    (∀ (oracles : Oracles) (org : Organization) (t : Task) (agent_id : String)
      (agent : Agent),
      org.select_agent_for_task t = some agent_id →
      org.agents.lookup agent_id = some agent →
      oracles.execTask agent t = .error () →
      org.processTask oracles t = ((org.assign_task t.id agent.id).1, .error ())) := by
  constructor
  · intro oracles org n task_id t1 h hf
    unfold Organization.run_organization at h
    cases hr : Organization.runCycles oracles n n org with
    | mk org1 r =>
        have h' : org1.tasks.lookup task_id = some t1 := by
          rw [hr] at h
          cases r with
          | error e => exact h
          | ok u => exact h
        have := runCycles_failed_mono oracles n n org task_id t1
        rw [hr] at this
        exact this h' hf
  · intro oracles org t agent_id agent hsel hag hexec
    unfold Organization.processTask
    rw [hsel]
    dsimp only
    rw [hag]
    dsimp only
    rw [hexec]

/-- Claim C3 witness: the amended statement applied to the pre-failed
task organization orgF and to the raising execution on orgE. -/
theorem task_failure_not_caught_witness :
    (∃ t0, orgF.tasks.lookup "tf" = some t0 ∧ t0.status = .failed) ∧
    orgE.processTask oraclesE taskE1 = ((orgE.assign_task taskE1.id agentE.id).1,
      .error ()) :=
  ⟨task_failure_not_caught.1 oraclesOk orgF 1 "tf" taskF rfl rfl,
   task_failure_not_caught.2 oraclesE orgE taskE1 "ae" agentE (by decide) rfl rfl⟩

/-! ## Claim C1: lemmas about the ghost trace -/

theorem completedIds_append (es es2 : List SchedEvent) :
    completedIds (es ++ es2) = completedIds es ++ completedIds es2 := by
  induction es with
  | nil => rfl
  | cons e rest ih =>
      cases e with
      | assigned tid deps snap => simpa [completedIds] using ih
      | completedTask tid => simpa [completedIds] using ih

theorem mem_completedIds (d : String) :
    ∀ (es : List SchedEvent), d ∈ completedIds es →
    ∃ j, es.get? j = some (.completedTask d) := by
  intro es
  induction es with
  | nil => intro h; simp [completedIds] at h
  | cons e rest ih =>
      intro h
      cases e with
      | assigned tid deps snap =>
          obtain ⟨j, hj⟩ := ih (by simpa [completedIds] using h)
          exact ⟨j + 1, by simpa using hj⟩
      | completedTask tid =>
          simp only [completedIds, List.mem_cons] at h
          rcases h with h | h
          · exact ⟨0, by simp [h]⟩
          · obtain ⟨j, hj⟩ := ih h
            exact ⟨j + 1, by simpa using hj⟩

theorem get?_append_singleton {α : Type} (es : List α) (e x : α) (i : ℕ)
    (h : (es ++ [e]).get? i = some x) :
    (i < es.length ∧ es.get? i = some x) ∨ (i = es.length ∧ x = e) := by
  by_cases hi : i < es.length
  · left
    refine ⟨hi, ?_⟩
    rw [← h]
    exact (List.get?_append hi).symm
  · right
    have hle : es.length ≤ i := Nat.le_of_not_lt hi
    rw [List.get?_append_right hle] at h
    have hlen : i < es.length + 1 := by
      by_contra hc
      have : 1 ≤ i - es.length := by omega
      have : ([e].get? (i - es.length)) = none := by
        apply List.get?_eq_none.mpr
        simpa using this
      rw [this] at h
      cases h
    have hzero : i - es.length = 0 := by omega
    rw [hzero] at h
    refine ⟨by omega, ?_⟩
    simpa using (Option.some.inj h).symm

theorem depsRespected_append_completed (es : List SchedEvent) (tid : String)
    (h : DepsRespected es) : DepsRespected (es ++ [.completedTask tid]) := by
  intro i tid1 deps snap hi
  rcases get?_append_singleton es _ _ i hi with ⟨hlt, hget⟩ | ⟨_, habs⟩
  · obtain ⟨h1, h2⟩ := h i tid1 deps snap hget
    refine ⟨h1, ?_⟩
    intro d hd
    obtain ⟨j, hj, hget2⟩ := h2 d hd
    refine ⟨j, hj, ?_⟩
    rw [List.get?_append (lt_trans hj hlt)]
    exact hget2
  · cases habs

theorem depsRespected_append_assigned (es : List SchedEvent) (tid : String)
    (deps snap : List String) (h : DepsRespected es)
    (hsnap : ∀ d ∈ deps, d ∈ snap)
    (hprev : ∀ d ∈ deps, ∃ j, es.get? j = some (.completedTask d)) :
    DepsRespected (es ++ [.assigned tid deps snap]) := by
  intro i tid1 deps1 snap1 hi
  rcases get?_append_singleton es _ _ i hi with ⟨hlt, hget⟩ | ⟨hlen, heq⟩
  · obtain ⟨h1, h2⟩ := h i tid1 deps1 snap1 hget
    refine ⟨h1, ?_⟩
    intro d hd
    obtain ⟨j, hj, hget2⟩ := h2 d hd
    refine ⟨j, hj, ?_⟩
    rw [List.get?_append (lt_trans hj hlt)]
    exact hget2
  · have hdeps : deps1 = deps := by
      injection heq with h1
    have hsnap1 : snap1 = snap := by
      injection heq with h1 h2 h3
    subst hdeps; subst hsnap1
    refine ⟨hsnap, ?_⟩
    intro d hd
    obtain ⟨j, hj⟩ := hprev d hd
    have hjlt : j < es.length := by
      have := List.get?_eq_some.mp hj
      exact this.1
    refine ⟨j, by omega, ?_⟩
    rw [List.get?_append hjlt]
    exact hj

theorem mem_keys_dictInsert {α : Type} (k x : String) (v : α)
    (l : List (String × α)) :
    x ∈ (dictInsert k v l).map Prod.fst ↔ x = k ∨ x ∈ l.map Prod.fst := by
  induction l with
  | nil => simp [dictInsert]
  | cons p rest ih =>
      obtain ⟨k0, v0⟩ := p
      by_cases h0 : k0 = k
      · subst h0
        simp [dictInsert]
      · have hbeq : (k0 == k) = false := by simpa using h0
        simp only [dictInsert, hbeq, Bool.false_eq_true, if_false, List.map_cons,
          List.mem_cons, ih]
        tauto

theorem nodup_keys_dictInsert {α : Type} (k : String) (v : α)
    (l : List (String × α)) (h : (l.map Prod.fst).Nodup) :
    ((dictInsert k v l).map Prod.fst).Nodup := by
  induction l with
  | nil => simp [dictInsert]
  | cons p rest ih =>
      obtain ⟨k0, v0⟩ := p
      simp only [List.map_cons, List.nodup_cons] at h
      by_cases h0 : k0 = k
      · subst h0
        simpa [dictInsert] using h
      · have hbeq : (k0 == k) = false := by simpa using h0
        simp only [dictInsert, hbeq, Bool.false_eq_true, if_false, List.map_cons,
          List.nodup_cons]
        refine ⟨?_, ih h.2⟩
        rw [mem_keys_dictInsert]
        push_neg
        exact ⟨h0, h.1⟩

theorem lookup_mem {α : Type} (l : List (String × α)) (k : String) (v : α)
    (h : l.lookup k = some v) : (k, v) ∈ l := by
  induction l with
  | nil => cases h
  | cons p rest ih =>
      obtain ⟨k0, v0⟩ := p
      by_cases hk : k = k0
      · subst hk
        simp only [List.lookup, beq_self_eq_true] at h
        have hv : v0 = v := Option.some.inj h
        subst hv
        exact List.mem_cons_self _ _
      · have hbeq : (k == k0) = false := by simpa using hk
        simp only [List.lookup, hbeq] at h
        exact List.mem_cons_of_mem _ (ih h)

theorem lookup_of_mem_nodup {α : Type} (l : List (String × α)) (k : String) (v : α)
    (hmem : (k, v) ∈ l) (hnodup : (l.map Prod.fst).Nodup) : l.lookup k = some v := by
  induction l with
  | nil => simp at hmem
  | cons p rest ih =>
      obtain ⟨k0, v0⟩ := p
      simp only [List.map_cons, List.nodup_cons] at hnodup
      rcases List.mem_cons.mp hmem with h | h
      · have hk : k = k0 := (Prod.mk.injEq _ _ _ _ ▸ h).1
        have hv : v = v0 := (Prod.mk.injEq _ _ _ _ ▸ h).2
        subst hk; subst hv
        simp [List.lookup]
      · have hk : k ≠ k0 := by
          intro hkk
          subst hkk
          exact hnodup.1 (List.mem_map.mpr ⟨(k, v), h, rfl⟩)
        have hbeq : (k == k0) = false := by simpa using hk
        simp only [List.lookup, hbeq]
        exact ih h hnodup.2

theorem assign_task_schedinv (org : Organization) (tid aid : String)
    (hinv : SchedInv org)
    (hdep : ∀ u, org.tasks.lookup tid = some u →
      ∀ d ∈ u.dependencies, d ∈ org.completed_tasks) :
    SchedInv (org.assign_task tid aid).1 ∧
    (org.assign_task tid aid).1.completed_tasks = org.completed_tasks ∧
    (∀ id' u', (org.assign_task tid aid).1.tasks.lookup id' = some u' →
      ∃ u, org.tasks.lookup id' = some u ∧ u'.dependencies = u.dependencies) := by
  obtain ⟨hec, hdr, hwk, hnd⟩ := hinv
  cases hlt : org.tasks.lookup tid with
  | none =>
      have hres : org.assign_task tid aid = (org, false) := by
        unfold Organization.assign_task; rw [hlt]
      rw [hres]
      exact ⟨⟨hec, hdr, hwk, hnd⟩, rfl, fun id' u' h => ⟨u', h, rfl⟩⟩
  | some u =>
      cases hla : org.agents.lookup aid with
      | none =>
          have hres : org.assign_task tid aid = (org, false) := by
            unfold Organization.assign_task; rw [hlt, hla]
          rw [hres]
          exact ⟨⟨hec, hdr, hwk, hnd⟩, rfl, fun id' u' h => ⟨u', h, rfl⟩⟩
      | some a =>
          have hres : org.assign_task tid aid =
              ({ org with
                  tasks := dictInsert tid
                    (Task.update_status { u with assigned_to := some aid }
                      .in_progress) org.tasks,
                  events := org.events ++
                    [SchedEvent.assigned tid u.dependencies org.completed_tasks] },
               true) := by
            unfold Organization.assign_task; rw [hlt, hla]
          rw [hres]
          have huid : u.id = tid := hwk (tid, u) (lookup_mem _ _ _ hlt)
          refine ⟨⟨?_, ?_, ?_, ?_⟩, rfl, ?_⟩
          · show org.completed_tasks =
              completedIds (org.events ++ [SchedEvent.assigned tid u.dependencies
                org.completed_tasks])
            rw [completedIds_append]
            simpa [completedIds] using hec
          · show DepsRespected (org.events ++ [SchedEvent.assigned tid u.dependencies
              org.completed_tasks])
            apply depsRespected_append_assigned _ _ _ _ hdr (hdep u hlt)
            intro d hd
            have hdc : d ∈ org.completed_tasks := hdep u hlt d hd
            rw [hec] at hdc
            exact mem_completedIds d org.events hdc
          · intro p hp
            exact dictInsert_forall tid _ org.tasks hwk (by simpa using huid) p hp
          · exact nodup_keys_dictInsert _ _ _ hnd
          · intro id' u' h
            rcases dictInsert_lookup_cases _ _ _ _ _ h with ⟨hid, rfl⟩ | ⟨_, h2⟩
            · subst hid
              exact ⟨u, hlt, rfl⟩
            · exact ⟨u', h2, rfl⟩

theorem recordEvaluation_schedinv (org1 : Organization) (t2 : Task)
    (evalWork : Critic → Agent → Task → ℚ) (h : SchedInv org1) :
    SchedInv (org1.recordEvaluation t2 evalWork) := by
  obtain ⟨hf1, hf2, hf3⟩ := recordEvaluation_sched_fields org1 t2 evalWork
  unfold SchedInv EventsConsistent TasksWellKeyed at h ⊢
  rw [hf1, hf2, hf3]
  exact h

theorem complete_task_schedinv (org : Organization) (tid : String)
    (results : List (String × String)) (evalWork : Critic → Agent → Task → ℚ)
    (hinv : SchedInv org) :
    SchedInv (org.complete_task tid results evalWork).1 ∧
    (∃ l, (org.complete_task tid results evalWork).1.completed_tasks =
      org.completed_tasks ++ l) ∧
    (∀ id' u', (org.complete_task tid results evalWork).1.tasks.lookup id' = some u' →
      ∃ u, org.tasks.lookup id' = some u ∧ u'.dependencies = u.dependencies) := by
  obtain ⟨hec, hdr, hwk, hnd⟩ := hinv
  cases hlt : org.tasks.lookup tid with
  | none =>
      have hres : org.complete_task tid results evalWork = (org, false) := by
        unfold Organization.complete_task; rw [hlt]
      rw [hres]
      exact ⟨⟨hec, hdr, hwk, hnd⟩, ⟨[], by simp⟩, fun id' u' h => ⟨u', h, rfl⟩⟩
  | some t =>
      have hres : org.complete_task tid results evalWork =
          (Organization.recordEvaluation
            { org with
                tasks := dictInsert tid
                  (Task.update_status
                    (results.foldl (fun acc kv => acc.add_result kv.1 kv.2) t)
                    .completed) org.tasks,
                completed_tasks := org.completed_tasks ++ [tid],
                events := org.events ++ [SchedEvent.completedTask tid] }
            (Task.update_status
              (results.foldl (fun acc kv => acc.add_result kv.1 kv.2) t) .completed)
            evalWork, true) := by
        unfold Organization.complete_task; rw [hlt]
      rw [hres]
      obtain ⟨hfa, hft, hfid, hfdeps⟩ := foldl_add_result_fields results t
      have htid : t.id = tid := hwk (tid, t) (lookup_mem _ _ _ hlt)
      have horg1 : SchedInv
          { org with
              tasks := dictInsert tid
                (Task.update_status
                  (results.foldl (fun acc kv => acc.add_result kv.1 kv.2) t)
                  .completed) org.tasks,
              completed_tasks := org.completed_tasks ++ [tid],
              events := org.events ++ [SchedEvent.completedTask tid] } := by
        refine ⟨?_, ?_, ?_, ?_⟩
        · show org.completed_tasks ++ [tid] =
            completedIds (org.events ++ [SchedEvent.completedTask tid])
          rw [completedIds_append, ← hec]
          rfl
        · exact depsRespected_append_completed _ _ hdr
        · intro p hp
          refine dictInsert_forall tid _ org.tasks hwk ?_ p hp
          show (Task.update_status
            (results.foldl (fun acc kv => acc.add_result kv.1 kv.2) t) .completed).id = tid
          simpa [Task.update_status, hfid] using htid
        · exact nodup_keys_dictInsert _ _ _ hnd
      obtain ⟨hf1, hf2, _⟩ := recordEvaluation_sched_fields
        { org with
            tasks := dictInsert tid
              (Task.update_status
                (results.foldl (fun acc kv => acc.add_result kv.1 kv.2) t)
                .completed) org.tasks,
            completed_tasks := org.completed_tasks ++ [tid],
            events := org.events ++ [SchedEvent.completedTask tid] }
        (Task.update_status
          (results.foldl (fun acc kv => acc.add_result kv.1 kv.2) t) .completed)
        evalWork
      refine ⟨recordEvaluation_schedinv _ _ _ horg1, ⟨[tid], by rw [hf2]⟩, ?_⟩
      intro id' u' h
      rw [hf1] at h
      dsimp only at h
      rcases dictInsert_lookup_cases _ _ _ _ _ h with ⟨hid, rfl⟩ | ⟨_, h2⟩
      · subst hid
        exact ⟨t, hlt, by simpa [Task.update_status] using hfdeps⟩
      · exact ⟨u', h2, rfl⟩

theorem processTask_schedinv (oracles : Oracles) (org : Organization) (t : Task)
    (hinv : SchedInv org)
    (hdep : ∀ u, org.tasks.lookup t.id = some u →
      ∀ d ∈ u.dependencies, d ∈ org.completed_tasks) :
    SchedInv (org.processTask oracles t).1 ∧
    (∃ l, (org.processTask oracles t).1.completed_tasks = org.completed_tasks ++ l) ∧
    (∀ id' u', (org.processTask oracles t).1.tasks.lookup id' = some u' →
      ∃ u, org.tasks.lookup id' = some u ∧ u'.dependencies = u.dependencies) := by
  unfold Organization.processTask
  cases hsel : org.select_agent_for_task t with
  | none =>
      exact ⟨hinv, ⟨[], by simp⟩, fun id' u' h => ⟨u', h, rfl⟩⟩
  | some agent_id =>
      dsimp only
      cases hla : org.agents.lookup agent_id with
      | none =>
          exact ⟨hinv, ⟨[], by simp⟩, fun id' u' h => ⟨u', h, rfl⟩⟩
      | some agent =>
          dsimp only
          obtain ⟨hinvA, hcomplA, hdepsA⟩ :=
            assign_task_schedinv org t.id agent.id hinv hdep
          cases hexec : oracles.execTask agent t with
          | error e =>
              exact ⟨hinvA, ⟨[], by rw [hcomplA, List.append_nil]⟩, hdepsA⟩
          | ok results =>
              dsimp only
              obtain ⟨hinvC, ⟨l, hcomplC⟩, hdepsC⟩ :=
                complete_task_schedinv (org.assign_task t.id agent.id).1 t.id
                  results oracles.evalWork hinvA
              refine ⟨hinvC, ⟨l, by rw [hcomplC, hcomplA]⟩, ?_⟩
              intro id' u' h
              obtain ⟨u1, h1, he1⟩ := hdepsC id' u' h
              obtain ⟨u0, h0, he0⟩ := hdepsA id' u1 h1
              exact ⟨u0, h0, he1.trans he0⟩

theorem runCycleTasks_schedinv (oracles : Oracles) (c0 : List String) :
    ∀ (ts : List Task) (org : Organization), SchedInv org →
    (∀ x ∈ c0, x ∈ org.completed_tasks) →
    (∀ t ∈ ts, ∀ u, org.tasks.lookup t.id = some u →
      ∀ d ∈ u.dependencies, d ∈ c0) →
    SchedInv (Organization.runCycleTasks oracles ts org).1 ∧
    (∀ x ∈ org.completed_tasks,
      x ∈ (Organization.runCycleTasks oracles ts org).1.completed_tasks) := by
  intro ts
  induction ts with
  | nil => intro org hinv _ _; exact ⟨hinv, fun x hx => hx⟩
  | cons t rest ih =>
      intro org hinv hc0 hts
      have hdep : ∀ u, org.tasks.lookup t.id = some u →
          ∀ d ∈ u.dependencies, d ∈ org.completed_tasks := by
        intro u hu d hd
        exact hc0 d (hts t (List.mem_cons_self _ _) u hu d hd)
      obtain ⟨hinv1, ⟨l, hcompl⟩, hdeps1⟩ := processTask_schedinv oracles org t hinv hdep
      unfold Organization.runCycleTasks
      cases hp : org.processTask oracles t with
      | mk org1 r =>
          rw [hp] at hinv1 hcompl hdeps1
          dsimp only at hinv1 hcompl hdeps1 ⊢
          have hmono : ∀ x ∈ org.completed_tasks, x ∈ org1.completed_tasks := by
            intro x hx
            rw [hcompl]
            exact List.mem_append_left _ hx
          cases r with
          | error e => exact ⟨hinv1, hmono⟩
          | ok u =>
              dsimp only
              have hc0' : ∀ x ∈ c0, x ∈ org1.completed_tasks := fun x hx =>
                hmono x (hc0 x hx)
              have hts' : ∀ t' ∈ rest, ∀ u', org1.tasks.lookup t'.id = some u' →
                  ∀ d ∈ u'.dependencies, d ∈ c0 := by
                intro t' ht' u' hu' d hd
                obtain ⟨u0, h0, he0⟩ := hdeps1 t'.id u' hu'
                exact hts t' (List.mem_cons_of_mem _ ht') u0 h0 d (he0 ▸ hd)
              obtain ⟨hinv2, hmono2⟩ := ih org1 hinv1 hc0' hts'
              exact ⟨hinv2, fun x hx => hmono2 x (hmono x hx)⟩

theorem calculate_compensation_sched_fields (org : Organization) (oracles : Oracles) :
    (org.calculate_compensation oracles).2.tasks = org.tasks ∧
    (org.calculate_compensation oracles).2.completed_tasks = org.completed_tasks ∧
    (org.calculate_compensation oracles).2.events = org.events :=
  ⟨rfl, rfl, rfl⟩

theorem calculate_compensation_schedinv (org : Organization) (oracles : Oracles)
    (h : SchedInv org) : SchedInv (org.calculate_compensation oracles).2 := by
  obtain ⟨hf1, hf2, hf3⟩ := calculate_compensation_sched_fields org oracles
  unfold SchedInv EventsConsistent TasksWellKeyed at h ⊢
  rw [hf1, hf2, hf3]
  exact h

theorem available_task_deps (org : Organization) (hinv : SchedInv org) :
    ∀ t ∈ org.get_available_tasks, ∀ u, org.tasks.lookup t.id = some u →
    ∀ d ∈ u.dependencies, d ∈ org.completed_tasks := by
  obtain ⟨_, _, hwk, hnd⟩ := hinv
  intro t ht u hu d hd
  have hfil := List.mem_filter.mp ht
  have hpend := List.mem_filter.mp hfil.1
  obtain ⟨p, hp, hpt⟩ := List.mem_map.mp hpend.1
  have hkey : p.1 = t.id := by
    rw [← hwk p hp, hpt]
  have hlookup : org.tasks.lookup t.id = some t := by
    apply lookup_of_mem_nodup _ _ _ _ hnd
    have : p = (t.id, t) := by
      obtain ⟨k, v⟩ := p
      simp only at hpt hkey
      rw [hkey, hpt]
    rw [← this]
    exact hp
  have hut : u = t := by
    rw [hlookup] at hu
    exact (Option.some.inj hu).symm
  subst hut
  have hcs : u.can_start org.completed_tasks = true := by simpa using hfil.2
  have := List.all_eq_true.mp hcs d hd
  simpa using this

theorem runCycles_schedinv (oracles : Oracles) (max_cycles : ℕ) :
    ∀ (remaining : ℕ) (org : Organization), SchedInv org →
    SchedInv (Organization.runCycles oracles max_cycles remaining org).1 := by
  intro remaining
  induction remaining with
  | zero => intro org hinv; exact hinv
  | succ k ih =>
      intro org hinv
      unfold Organization.runCycles
      by_cases hav : org.get_available_tasks.isEmpty
      · rw [if_pos hav]; exact hinv
      · rw [if_neg hav]
        obtain ⟨hinv1, _⟩ := runCycleTasks_schedinv oracles org.completed_tasks
          org.get_available_tasks org hinv (fun x hx => hx)
          (available_task_deps org hinv)
        cases hc : Organization.runCycleTasks oracles org.get_available_tasks org with
        | mk org1 r =>
            rw [hc] at hinv1
            dsimp only at hinv1 ⊢
            cases r with
            | error e => exact hinv1
            | ok u =>
                dsimp only
                by_cases hcomp : (max_cycles - (k + 1) == max_cycles - 1) = true ||
                    org1.get_pending_tasks.isEmpty = true
                · rw [if_pos (by simpa using hcomp)]
                  exact ih _ (calculate_compensation_schedinv org1 oracles hinv1)
                · rw [if_neg (by simpa using hcomp)]
                  exact ih _ hinv1

/-- Claim C1: in a run starting from a consistently keyed organization
with empty completed list, the trace of the scheduler satisfies the
dependency invariant: every event that moves a task to InProgress carries
only dependencies already inside its completed-set snapshot, and each
such dependency was completed strictly earlier in the trace — so for any
chain C depends on B depends on A, A completes before B starts and B
completes before C starts, regardless of submission order. -/
theorem run_dependency_invariant :
    ∀ (oracles : Oracles) (org : Organization) (max_cycles : ℕ),
    TasksWellKeyed org → (org.tasks.map Prod.fst).Nodup →
    org.completed_tasks = [] → org.events = [] →
    DepsRespected (org.run_organization oracles max_cycles).1.events := by
  intro oracles org max_cycles hwk hnd hc he
  have hinv : SchedInv org := by
    refine ⟨?_, ?_, hwk, hnd⟩
    · show org.completed_tasks = completedIds org.events
      rw [hc, he]
      rfl
    · rw [he]
      intro i tid deps snap hi
      simp at hi
  have hfin := runCycles_schedinv oracles max_cycles max_cycles org hinv
  unfold Organization.run_organization
  cases hr : Organization.runCycles oracles max_cycles max_cycles org with
  | mk org1 r =>
      rw [hr] at hfin
      cases r with
      | error e => exact hfin.2.1
      | ok u => exact hfin.2.1

/-- Claim C1 witness: the dependency chain C depends on B depends on A,
submitted in reverse order, run for three cycles. -/
theorem run_dependency_invariant_witness :
    DepsRespected (orgChain.run_organization oraclesOk 3).1.events :=
  run_dependency_invariant oraclesOk orgChain 3
    (by unfold TasksWellKeyed; decide) (by decide) rfl rfl

end FitDev
